import Mathlib

/-!
# VaultRocket: shallow embedding of the campaign ledger and client amount parsing

This file embeds the `VaultRocket` Solidity contract (confidential fundraising
over an encrypted-balance token), the spec-modelled `ConfidentialUSDT` token it
calls into, and the frontend's `parseAmount` string conversion, and proves the
specification claims about them.

Modelling conventions:
* `euint64` ciphertext handles are modelled as a pair of a freshness identifier
  (`hid`, with `0` the uninitialized zero handle, mirroring `FHE.isInitialized`)
  and the plaintext value the handle decrypts to (`val`, kept below `2^64`,
  since homomorphic addition on `euint64` wraps modulo `2^64`).
* Addresses are natural numbers.  `block.timestamp` is passed explicitly to each
  call as `now`.  Reverts are `Except.error`; a revert rolls back all state, so
  an erroring call returns no state at all.
* `FHE.allow` / `FHE.allowThis` calls are recorded in an access-control list of
  grant records; each record keeps the raw handle id, the grantee address, and
  the role the granted handle plays at the grant site (input amount,
  per-contributor total, campaign aggregate, zero payout).
-/

namespace VaultRocket

/-- 2^64, the modulus of `euint64` arithmetic. -/
def U64 : Nat := 18446744073709551616

/-- Addresses are modelled as natural numbers. -/
abbrev Address := Nat

/-- An `euint64` ciphertext handle: freshness id (`0` = uninitialized, as
tested by `FHE.isInitialized`) together with the plaintext value it decrypts
to. -/
structure Handle where
  hid : Nat
  val : Nat
  deriving DecidableEq, Repr

/-- The all-zero uninitialized handle (Solidity mapping default). -/
def Handle.uninit : Handle := ⟨0, 0⟩

/-- `FHE.isInitialized`: a handle is initialized iff it is not the zero
handle. -/
def Handle.isInit (h : Handle) : Bool := h.hid ≠ 0

/-- The role a handle plays at an `FHE.allow` grant site. -/
inductive HandleRole where
  /-- The freshly imported contribution amount (`FHE.fromExternal` result). -/
  | inputAmt (contributor : Address)
  /-- The accumulated per-contributor total `contributions[cid][contributor]`. -/
  | contribTotal (cid : Nat) (contributor : Address)
  /-- The campaign aggregate `campaigns[cid].totalRaised`. -/
  | aggregate (cid : Nat)
  /-- The fresh zero payout cipher in `closeCampaign`'s uninitialized-balance
  branch. -/
  | zeroPayout (cid : Nat)
  deriving DecidableEq, Repr

/-- One `FHE.allow(handle, grantee)` record. -/
structure Grant where
  grantee : Address
  hid : Nat
  role : HandleRole
  deriving DecidableEq, Repr

/-- The `Campaign` struct of the contract. -/
structure Campaign where
  name : String
  targetAmount : Nat
  endTimestamp : Nat
  finalized : Bool
  totalRaised : Handle
  deriving DecidableEq, Repr

/-- Solidity mapping default value for `Campaign`. -/
def Campaign.default : Campaign := ⟨"", 0, 0, false, Handle.uninit⟩

/-- The contract's revert reasons (custom errors, plus the `onlyOwner`
modifier's failure). -/
inductive VRError where
  | notOwner
  | campaignNotConfigured
  | campaignAlreadyFinalized
  | campaignEnded
  | invalidEndTimestamp
  deriving DecidableEq, Repr

/-- Combined state of the `VaultRocket` contract and the spec-modelled
`ConfidentialUSDT` token it calls into. -/
structure VRState where
  /-- `Ownable` owner of the vault (fixed at deployment). -/
  owner : Address
  /-- `address(this)` of the vault. -/
  selfAddr : Address
  /-- `address(paymentToken)`. -/
  tokenAddr : Address
  /-- `uint256 public campaignId`. -/
  campaignId : Nat
  /-- `mapping(uint256 => Campaign) private campaigns`. -/
  campaigns : Nat → Campaign
  /-- `mapping(uint256 => mapping(address => euint64)) private contributions`. -/
  contributions : Nat → Address → Handle
  /-- Counter producing fresh ciphertext handle ids (starts at 1; 0 is the
  uninitialized handle). -/
  nextHid : Nat
  /-- Modelled from the spec: the encrypted token's per-address balances
  (`confidentialBalanceOf`). The `ConfidentialUSDT` contract itself is not in
  the repository sources; only its callers and tests are. -/
  balances : Address → Handle
  /-- Access-control list of decryption grants made so far. -/
  grants : List Grant

/-- Allocate a fresh ciphertext handle holding value `v` (mod `2^64`). -/
def freshHandle (s : VRState) (v : Nat) : Handle × VRState :=
  (⟨s.nextHid, v % U64⟩, { s with nextHid := s.nextHid + 1 })

/-- `FHE.add` over `euint64`: fresh handle of the wrapped sum; an
uninitialized operand decrypts as zero. -/
def fheAdd (s : VRState) (a b : Handle) : Handle × VRState :=
  freshHandle s (a.val + b.val)

/-- Record an `FHE.allow(handle, grantee)` (or `FHE.allowThis`) call. -/
def addGrant (s : VRState) (grantee : Address) (h : Handle) (role : HandleRole) : VRState :=
  { s with grants := ⟨grantee, h.hid, role⟩ :: s.grants }

/-- Update one campaign record. -/
def setCampaign (s : VRState) (cid : Nat) (c : Campaign) : VRState :=
  { s with campaigns := fun k => if k = cid then c else s.campaigns k }

/-- Update one contribution entry. -/
def setContribution (s : VRState) (cid : Nat) (who : Address) (h : Handle) : VRState :=
  { s with contributions := fun k a =>
      if k = cid ∧ a = who then h else s.contributions k a }

/-- Update one token balance. -/
def setBalance (s : VRState) (who : Address) (h : Handle) : VRState :=
  { s with balances := fun a => if a = who then h else s.balances a }

/-- Modelled from the spec: the encrypted token's transfer-from-with-operator
(`confidentialTransferFrom`). The `ConfidentialUSDT` source is absent from the
repository; per the spec the token moves the (ciphertext) amount from `from`
to `to` and hands back the transferred amount as a fresh handle. A valid call
has the amount at most the sender's balance; the sender balance uses truncated
subtraction so the model stays total. -/
def confidentialTransferFrom (s : VRState) (src dst : Address) (amt : Handle) :
    Handle × VRState :=
  let s1 := setBalance s src ⟨(s.balances src).hid, (s.balances src).val - amt.val⟩
  let (newDst, s2) := fheAdd s1 (s1.balances dst) amt
  let s3 := setBalance s2 dst newDst
  freshHandle s3 amt.val

/-- Modelled from the spec: the encrypted token's direct transfer
(`confidentialTransfer`), invoked by the vault as `msg.sender`, i.e. moving
funds from the vault's own balance. -/
def confidentialTransfer (s : VRState) (src dst : Address) (amt : Handle) :
    Handle × VRState :=
  confidentialTransferFrom s src dst amt

/-- Modelled from the spec: the token's open `mint(to, amount)`. -/
def mint (s : VRState) (dst : Address) (amount : Nat) : VRState :=
  let (newBal, s1) := fheAdd s (s.balances dst) ⟨0, amount % U64⟩
  setBalance s1 dst newBal

/-- The body of `configureCampaign` after its guards: allocates a fresh id
with a fresh zero total when no campaign exists or the current one is
finalized, then overwrites the mutable fields of the current campaign in
place. -/
def configureBody (s : VRState) (nm : String) (target endTs : Nat) : VRState :=
  let s1 :=
    if s.campaignId = 0 ∨ (s.campaigns s.campaignId).finalized then
      let cid := s.campaignId + 1
      let s' := { s with campaignId := cid }
      let (h, s'') := freshHandle s' 0
      setCampaign s'' cid { s''.campaigns cid with totalRaised := h }
    else s
  let s2 :=
    if ¬(s1.campaigns s1.campaignId).totalRaised.isInit then
      let (h, s') := freshHandle s1 0
      setCampaign s' s1.campaignId { s'.campaigns s'.campaignId with totalRaised := h }
    else s1
  let cur := s2.campaigns s2.campaignId
  setCampaign s2 s2.campaignId
    { cur with name := nm, targetAmount := target, endTimestamp := endTs,
               finalized := false }

/-- `configureCampaign(name, targetAmount, endTimestamp)` — `onlyOwner`;
reverts `InvalidEndTimestamp` when `endTimestamp <= block.timestamp`;
otherwise runs `configureBody`. -/
def configureCampaign (s : VRState) (caller now : Nat) (nm : String)
    (target endTs : Nat) : Except VRError VRState :=
  if caller ≠ s.owner then .error .notOwner else
  if endTs ≤ now then .error .invalidEndTimestamp else
  .ok (configureBody s nm target endTs)

/-- The body of `contribute` after its three guards: pulls the tokens from the
contributor, homomorphically adds the transferred amount into both running
totals, grants decryption rights, and returns the caller's updated
per-contributor handle. `amount` is the plaintext of the external encrypted
input (an `externalEuint64`, hence reduced mod `2^64` on import). -/
def contributeBody (s : VRState) (caller amount : Nat) : VRState × Handle :=
  let (hAmt, s1) := freshHandle s amount
  let s2 := addGrant s1 s1.selfAddr hAmt (.inputAmt caller)
  let s3 := addGrant s2 s2.tokenAddr hAmt (.inputAmt caller)
  let (transferred, s4) := confidentialTransferFrom s3 caller s3.selfAddr hAmt
  let (hContrib, s5) := fheAdd s4 (s4.contributions s4.campaignId caller) transferred
  let s6 := setContribution s5 s5.campaignId caller hContrib
  let (hTotal, s7) := fheAdd s6 (s6.campaigns s6.campaignId).totalRaised transferred
  let s8 := setCampaign s7 s7.campaignId
      { s7.campaigns s7.campaignId with totalRaised := hTotal }
  let s9 := addGrant s8 s8.selfAddr hContrib (.contribTotal s8.campaignId caller)
  let s10 := addGrant s9 caller hContrib (.contribTotal s9.campaignId caller)
  let s11 := addGrant s10 s10.selfAddr hTotal (.aggregate s10.campaignId)
  let s12 := addGrant s11 s11.owner hTotal (.aggregate s11.campaignId)
  (s12, hContrib)

/-- `contribute(encryptedAmount, inputProof)` — reverts when no campaign is
configured, when the current campaign is finalized, or when
`block.timestamp >= endTimestamp`; otherwise runs `contributeBody`. -/
def contribute (s : VRState) (caller now amount : Nat) :
    Except VRError (VRState × Handle) :=
  if s.campaignId = 0 then .error .campaignNotConfigured else
  let cur := s.campaigns s.campaignId
  if cur.finalized then .error .campaignAlreadyFinalized else
  if cur.endTimestamp ≤ now then .error .campaignEnded else
  .ok (contributeBody s caller amount)

/-- The body of `closeCampaign` after its guards: marks the current campaign
finalized and transfers the contract's entire encrypted token balance to the
owner, treating an uninitialized balance as encrypted zero. -/
def closeBody (s : VRState) : VRState × Handle :=
  let cur := s.campaigns s.campaignId
  let s1 := setCampaign s s.campaignId { cur with finalized := true }
  let contractBalance := s1.balances s1.selfAddr
  if ¬contractBalance.isInit then
    let (hZ, s2) := freshHandle s1 0
    let s3 := addGrant s2 s2.selfAddr hZ (.zeroPayout s2.campaignId)
    let s4 := addGrant s3 s3.owner hZ (.zeroPayout s3.campaignId)
    (s4, hZ)
  else
    let (payout, s2) := confidentialTransfer s1 s1.selfAddr s1.owner contractBalance
    (s2, payout)

/-- `closeCampaign()` — `onlyOwner`; reverts when no campaign exists or the
current one is already finalized; otherwise runs `closeBody`. -/
def closeCampaign (s : VRState) (caller now : Nat) :
    Except VRError (VRState × Handle) :=
  if caller ≠ s.owner then .error .notOwner else
  if s.campaignId = 0 then .error .campaignNotConfigured else
  if (s.campaigns s.campaignId).finalized then .error .campaignAlreadyFinalized else
  .ok (closeBody s)

/-- `getCampaign()` view: reverts `CampaignNotConfigured` when `campaignId = 0`,
otherwise returns the current campaign's metadata, the owner address, and the
aggregate handle. -/
def getCampaign (s : VRState) :
    Except VRError (String × Nat × Nat × Bool × Address × Handle) :=
  if s.campaignId = 0 then .error .campaignNotConfigured else
  let cur := s.campaigns s.campaignId
  .ok (cur.name, cur.targetAmount, cur.endTimestamp, cur.finalized, s.owner,
       cur.totalRaised)

/-- `getContribution(id, contributor)` view: a bare mapping read — it cannot
revert. -/
def getContribution (s : VRState) (id : Nat) (contributor : Address) : Handle :=
  s.contributions id contributor

/-- `activeCampaignId()` view: reverts when `campaignId = 0`. -/
def activeCampaignId (s : VRState) : Except VRError Nat :=
  if s.campaignId = 0 then .error .campaignNotConfigured else .ok s.campaignId

/-- `isActive()` view: never reverts; false when no campaign, when finalized,
or when `block.timestamp >= endTimestamp`. -/
def isActive (s : VRState) (now : Nat) : Bool :=
  if s.campaignId = 0 then false else
  let cur := s.campaigns s.campaignId
  if cur.finalized then false else
  decide (now < cur.endTimestamp)

/-- Freshly deployed state: no campaign, empty ledgers, handle counter at 1. -/
def mkInit (owner selfAddr tokenAddr : Address) : VRState :=
  { owner := owner, selfAddr := selfAddr, tokenAddr := tokenAddr,
    campaignId := 0, campaigns := fun _ => Campaign.default,
    contributions := fun _ _ => Handle.uninit, nextHid := 1,
    balances := fun _ => Handle.uninit, grants := [] }

/-- One externally submitted transaction against the system. -/
inductive Op where
  | configure (caller now : Nat) (nm : String) (target endTs : Nat)
  | contribute (caller now amount : Nat)
  | close (caller now : Nat)
  | mint (dst : Address) (amount : Nat)
  deriving Repr

/-- Execute one transaction: a revert rolls the state back unchanged. -/
def exec (s : VRState) (op : Op) : VRState :=
  match op with
  | .configure caller now nm target endTs =>
      match configureCampaign s caller now nm target endTs with
      | .ok s' => s'
      | .error _ => s
  | .contribute caller now amount =>
      match contribute s caller now amount with
      | .ok (s', _) => s'
      | .error _ => s
  | .close caller now =>
      match closeCampaign s caller now with
      | .ok (s', _) => s'
      | .error _ => s
  | .mint dst amount => mint s dst amount

/-- Run a list of transactions in order. -/
def run (s : VRState) (ops : List Op) : VRState :=
  ops.foldl exec s

/-- Well-formedness facts that hold in every reachable state: the fresh-handle
counter has moved past the reserved uninitialized id, every stored plaintext
value is a `uint64`, uninitialized handles decrypt to zero, and a configured,
not-yet-finalized campaign has an initialized aggregate handle. -/
structure WF (s : VRState) : Prop where
  nextHid_pos : 1 ≤ s.nextHid
  bal_lt : ∀ a, (s.balances a).val < U64
  bal_uninit : ∀ a, (s.balances a).hid = 0 → (s.balances a).val = 0
  contrib_lt : ∀ k a, (s.contributions k a).val < U64
  contrib_uninit : ∀ k a, (s.contributions k a).hid = 0 → (s.contributions k a).val = 0
  total_lt : ∀ k, ((s.campaigns k).totalRaised).val < U64
  total_init : s.campaignId ≠ 0 → (s.campaigns s.campaignId).finalized = false →
    ((s.campaigns s.campaignId).totalRaised).isInit = true

/-- The (amended) decryption-authorization scoping property: every grant to
an address other than the vault contract itself and the payment token
contract is either a contributor's grant on that contributor's own
accumulated-contribution handle, or a grant to the owner on a campaign
aggregate handle or on the zero payout handle of an empty close. -/
def GrantScoped (s : VRState) : Prop :=
  ∀ g ∈ s.grants,
    g.grantee ≠ s.selfAddr → g.grantee ≠ s.tokenAddr →
    ((∃ k, g.role = .contribTotal k g.grantee) ∨
     (g.grantee = s.owner ∧
      ∃ k, (g.role = .aggregate k ∨ g.role = .zeroPayout k)))

/-- Transactions not performed by the vault contract address itself: the
vault never calls `contribute` on itself and is never a mint target. Every
transaction submitted by an externally owned account satisfies this. -/
def OpNotVault (v : Address) : Op → Prop
  | .contribute caller _ _ => caller ≠ v
  | .mint dst _ => dst ≠ v
  | _ => True

/-- The funds invariant tying the contract's encrypted token balance to the
ledger: while a campaign is open the contract balance decrypts to the
campaign aggregate, and otherwise (no campaign, or finalized) it decrypts to
zero. -/
def BalInv (s : VRState) : Prop :=
  (s.campaignId ≠ 0 → (s.campaigns s.campaignId).finalized = false →
    (s.balances s.selfAddr).val = ((s.campaigns s.campaignId).totalRaised).val) ∧
  (s.campaignId = 0 ∨ (s.campaigns s.campaignId).finalized = true →
    (s.balances s.selfAddr).val = 0)

/-- One `contribute` transaction described by `(caller, block.timestamp,
plaintext amount)`. -/
abbrev CEntry := Address × Nat × Nat

/-- Execute one `contribute` transaction from a `CEntry`. -/
def contribCall (t : VRState) (e : CEntry) : VRState :=
  exec t (.contribute e.1 e.2.1 e.2.2)

/-- Execute a sequence of `contribute` transactions. -/
def runContribs (s : VRState) (cs : List CEntry) : VRState :=
  cs.foldl contribCall s

/-- Sum of the plaintext amounts of a list of contribute calls. -/
def sumAmounts (cs : List CEntry) : Nat :=
  (cs.map (fun e => e.2.2)).sum

/-- Sum of the plaintext amounts of the calls made by contributor `c`. -/
def sumAmountsOf (c : Address) (cs : List CEntry) : Nat :=
  sumAmounts (cs.filter (fun e => e.1 == c))

/-! ## The frontend's `parseAmount` string conversion

Embeds `parseAmount` from the web client, character-list by character-list:
`input.trim()`, the falsy-empty check, `trimmed.split('.')` with destructuring
`[whole, fraction = '']`, the two digit regular-expression tests, the
`(fraction + '000000').slice(0, 6)` padding/truncation, and the final
`BigInt(whole + paddedFraction)` digit-string read. -/

/-- The whitespace set trimmed by JavaScript `String.prototype.trim`
(WhiteSpace and LineTerminator code points). -/
def jsWs (c : Char) : Bool :=
  c.toNat ∈ [0x9, 0xA, 0xB, 0xC, 0xD, 0x20, 0xA0, 0x1680, 0x2000, 0x2001,
    0x2002, 0x2003, 0x2004, 0x2005, 0x2006, 0x2007, 0x2008, 0x2009, 0x200A,
    0x2028, 0x2029, 0x202F, 0x205F, 0x3000, 0xFEFF]

/-- `input.trim()` on a character list. -/
def jsTrimList (l : List Char) : List Char :=
  ((l.dropWhile (fun c => jsWs c)).reverse.dropWhile (fun c => jsWs c)).reverse

/-- JavaScript `str.split('.')`: the list of `'.'`-separated segments
(always nonempty; adjacent dots give empty segments). -/
def splitDot : List Char → List (List Char)
  | [] => [[]]
  | c :: rest =>
    match splitDot rest with
    | seg :: segs => if c = '.' then [] :: seg :: segs else (c :: seg) :: segs
    | [] => [[]]

/-- `BigInt` of an all-digit character string, as a left fold. -/
def digitsToNat (l : List Char) : Nat :=
  l.foldl (fun acc c => acc * 10 + (c.toNat - 48)) 0

/-- `parseAmount(input)` from the frontend: trim, reject empty, split on
dots destructuring the first two segments, test `^[0-9]+$` on the whole part
and `^[0-9]*$` on the fraction part, pad/truncate the fraction to six digits,
and read the concatenated digits. -/
def parseAmount (input : String) : Option Nat :=
  let trimmed := jsTrimList input.data
  if trimmed = [] then none else
  let whole := (splitDot trimmed).headD []
  let fraction := (splitDot trimmed).getD 1 []
  if ¬(whole ≠ [] ∧ whole.all (fun c => c.isDigit)) then none else
  if ¬(fraction.all (fun c => c.isDigit)) then none else
  let paddedFraction := (fraction ++ ['0', '0', '0', '0', '0', '0']).take 6
  some (digitsToNat (whole ++ paddedFraction))

/-- The claimed value of a fraction segment: its first six digits, right-padded
by scaling when it is shorter than six digits ("truncated or right-padded to
exactly six places"). -/
def specFracValue (f : List Char) : Nat :=
  digitsToNat (f.take 6) * 10 ^ (6 - f.length)

/-! ## Helper lemmas: the effect of each operation body on the state -/

lemma contributeBody_eq (s : VRState) (caller amount : Nat) :
    contributeBody s caller amount =
    ({ s with
        campaigns := fun k =>
          if k = s.campaignId
          then { s.campaigns s.campaignId with totalRaised :=
            ⟨s.nextHid + 4,
              (((s.campaigns s.campaignId).totalRaised).val + amount % U64) % U64⟩ }
          else s.campaigns k,
        contributions := fun k a =>
          if k = s.campaignId ∧ a = caller
          then ⟨s.nextHid + 3,
            ((s.contributions s.campaignId caller).val + amount % U64) % U64⟩
          else s.contributions k a,
        nextHid := s.nextHid + 5,
        balances := fun a =>
          if a = s.selfAddr then
            ⟨s.nextHid + 1,
              ((if s.selfAddr = caller then
                  (⟨(s.balances caller).hid, (s.balances caller).val - amount % U64⟩ : Handle)
                else s.balances s.selfAddr).val + amount % U64) % U64⟩
          else if a = caller then
            ⟨(s.balances caller).hid, (s.balances caller).val - amount % U64⟩
          else s.balances a,
        grants :=
          ⟨s.owner, s.nextHid + 4, .aggregate s.campaignId⟩ ::
          ⟨s.selfAddr, s.nextHid + 4, .aggregate s.campaignId⟩ ::
          ⟨caller, s.nextHid + 3, .contribTotal s.campaignId caller⟩ ::
          ⟨s.selfAddr, s.nextHid + 3, .contribTotal s.campaignId caller⟩ ::
          ⟨s.tokenAddr, s.nextHid, .inputAmt caller⟩ ::
          ⟨s.selfAddr, s.nextHid, .inputAmt caller⟩ :: s.grants },
     ⟨s.nextHid + 3,
        ((s.contributions s.campaignId caller).val + amount % U64) % U64⟩) := by
  simp_arith only [contributeBody, freshHandle, fheAdd, addGrant, setCampaign,
    setContribution, setBalance, confidentialTransferFrom, Nat.mod_mod_of_dvd,
    dvd_refl]

lemma configureBody_eq_new (s : VRState) (nm : String) (target endTs : Nat)
    (h : s.campaignId = 0 ∨ (s.campaigns s.campaignId).finalized)
    (hn : s.nextHid ≠ 0) :
    configureBody s nm target endTs =
    { s with
        campaignId := s.campaignId + 1,
        campaigns := fun k =>
          if k = s.campaignId + 1
          then { name := nm, targetAmount := target, endTimestamp := endTs,
                 finalized := false, totalRaised := ⟨s.nextHid, 0⟩ }
          else s.campaigns k,
        nextHid := s.nextHid + 1 } := by
  unfold configureBody
  rw [if_pos h]
  simp [freshHandle, setCampaign, Handle.isInit, hn]
  funext k
  by_cases hk : k = s.campaignId + 1 <;> simp [hk]

lemma configureBody_eq_inplace (s : VRState) (nm : String) (target endTs : Nat)
    (h : ¬(s.campaignId = 0 ∨ (s.campaigns s.campaignId).finalized))
    (hi : ((s.campaigns s.campaignId).totalRaised).isInit = true) :
    configureBody s nm target endTs =
    { s with
        campaigns := fun k =>
          if k = s.campaignId
          then { s.campaigns s.campaignId with
                   name := nm, targetAmount := target,
                   endTimestamp := endTs, finalized := false }
          else s.campaigns k } := by
  unfold configureBody
  rw [if_neg h]
  simp [hi, setCampaign]

lemma closeBody_eq_uninit (s : VRState)
    (hb : (s.balances s.selfAddr).isInit = false) :
    closeBody s =
    ({ s with
        campaigns := fun k =>
          if k = s.campaignId
          then { s.campaigns s.campaignId with finalized := true }
          else s.campaigns k,
        nextHid := s.nextHid + 1,
        grants :=
          ⟨s.owner, s.nextHid, .zeroPayout s.campaignId⟩ ::
          ⟨s.selfAddr, s.nextHid, .zeroPayout s.campaignId⟩ :: s.grants },
     ⟨s.nextHid, 0⟩) := by
  unfold closeBody
  simp [setCampaign, freshHandle, addGrant, hb]

lemma closeBody_eq_init (s : VRState)
    (hb : (s.balances s.selfAddr).isInit = true) :
    closeBody s =
    ({ s with
        campaigns := fun k =>
          if k = s.campaignId
          then { s.campaigns s.campaignId with finalized := true }
          else s.campaigns k,
        nextHid := s.nextHid + 2,
        balances := fun a =>
          if a = s.owner then
            ⟨s.nextHid,
              ((if s.owner = s.selfAddr then
                  (⟨(s.balances s.selfAddr).hid, 0⟩ : Handle)
                else s.balances s.owner).val + (s.balances s.selfAddr).val) % U64⟩
          else if a = s.selfAddr then ⟨(s.balances s.selfAddr).hid, 0⟩
          else s.balances a },
     ⟨s.nextHid + 1, (s.balances s.selfAddr).val % U64⟩) := by
  unfold closeBody
  simp_arith only [setCampaign, freshHandle, addGrant, setBalance, fheAdd,
    confidentialTransfer, confidentialTransferFrom, hb, Nat.sub_self,
    not_true, ite_false, Bool.not_true, Nat.mod_mod_of_dvd, dvd_refl,
    if_false]

lemma mint_eq (s : VRState) (dst amount : Nat) :
    mint s dst amount =
    { s with
        nextHid := s.nextHid + 1,
        balances := fun a =>
          if a = dst then ⟨s.nextHid, ((s.balances dst).val + amount % U64) % U64⟩
          else s.balances a } := by
  simp only [mint, fheAdd, freshHandle, setBalance, Nat.mod_mod_of_dvd, dvd_refl]

/-! ### Guard characterizations -/

lemma contribute_eq_ok (s : VRState) (caller now amount : Nat)
    (h0 : s.campaignId ≠ 0)
    (hf : (s.campaigns s.campaignId).finalized = false)
    (he : now < (s.campaigns s.campaignId).endTimestamp) :
    contribute s caller now amount = .ok (contributeBody s caller amount) := by
  simp [contribute, h0, hf, not_le_of_gt he]

lemma contribute_error_iff (s : VRState) (caller now amount : Nat) :
    (∃ e, contribute s caller now amount = .error e) ↔
      s.campaignId = 0 ∨ (s.campaigns s.campaignId).finalized = true ∨
      (s.campaigns s.campaignId).endTimestamp ≤ now := by
  by_cases h0 : s.campaignId = 0
  · simp [contribute, h0]
  · by_cases hf : (s.campaigns s.campaignId).finalized = true
    · simp [contribute, h0, hf]
    · by_cases he : (s.campaigns s.campaignId).endTimestamp ≤ now <;>
        simp [contribute, h0, hf, he]

lemma configure_eq_ok (s : VRState) (caller now : Nat) (nm : String)
    (target endTs : Nat) (hc : caller = s.owner) (he : now < endTs) :
    configureCampaign s caller now nm target endTs =
      .ok (configureBody s nm target endTs) := by
  simp [configureCampaign, hc, not_le_of_gt he]

lemma configure_error_iff (s : VRState) (caller now : Nat) (nm : String)
    (target endTs : Nat) :
    (∃ e, configureCampaign s caller now nm target endTs = .error e) ↔
      caller ≠ s.owner ∨ endTs ≤ now := by
  by_cases hc : caller = s.owner
  · by_cases he : endTs ≤ now <;> simp [configureCampaign, hc, he]
  · simp [configureCampaign, hc]

lemma close_eq_ok (s : VRState) (caller now : Nat)
    (hc : caller = s.owner) (h0 : s.campaignId ≠ 0)
    (hf : (s.campaigns s.campaignId).finalized = false) :
    closeCampaign s caller now = .ok (closeBody s) := by
  simp [closeCampaign, hc, h0, hf]

lemma close_error_iff (s : VRState) (caller now : Nat) :
    (∃ e, closeCampaign s caller now = .error e) ↔
      caller ≠ s.owner ∨ s.campaignId = 0 ∨
      (s.campaigns s.campaignId).finalized = true := by
  by_cases hc : caller = s.owner
  · by_cases h0 : s.campaignId = 0
    · simp [closeCampaign, hc, h0]
    · by_cases hf : (s.campaigns s.campaignId).finalized = true <;>
        simp [closeCampaign, hc, h0, hf]
  · simp [closeCampaign, hc]

/-! ### `exec` rewrites -/

lemma exec_contribute_ok (s : VRState) (caller now amount : Nat)
    (h0 : s.campaignId ≠ 0)
    (hf : (s.campaigns s.campaignId).finalized = false)
    (he : now < (s.campaigns s.campaignId).endTimestamp) :
    exec s (.contribute caller now amount) = (contributeBody s caller amount).1 := by
  simp [exec, contribute_eq_ok s caller now amount h0 hf he]

lemma exec_contribute_fail (s : VRState) (caller now amount : Nat)
    (h : s.campaignId = 0 ∨ (s.campaigns s.campaignId).finalized = true ∨
         (s.campaigns s.campaignId).endTimestamp ≤ now) :
    exec s (.contribute caller now amount) = s := by
  obtain ⟨e, he⟩ := (contribute_error_iff s caller now amount).mpr h
  simp [exec, he]

lemma exec_configure_ok (s : VRState) (caller now : Nat) (nm : String)
    (target endTs : Nat) (hc : caller = s.owner) (he : now < endTs) :
    exec s (.configure caller now nm target endTs) =
      configureBody s nm target endTs := by
  simp [exec, configure_eq_ok s caller now nm target endTs hc he]

lemma exec_configure_fail (s : VRState) (caller now : Nat) (nm : String)
    (target endTs : Nat) (h : caller ≠ s.owner ∨ endTs ≤ now) :
    exec s (.configure caller now nm target endTs) = s := by
  obtain ⟨e, he⟩ := (configure_error_iff s caller now nm target endTs).mpr h
  simp [exec, he]

lemma exec_close_ok (s : VRState) (caller now : Nat)
    (hc : caller = s.owner) (h0 : s.campaignId ≠ 0)
    (hf : (s.campaigns s.campaignId).finalized = false) :
    exec s (.close caller now) = (closeBody s).1 := by
  simp [exec, close_eq_ok s caller now hc h0 hf]

lemma exec_close_fail (s : VRState) (caller now : Nat)
    (h : caller ≠ s.owner ∨ s.campaignId = 0 ∨
         (s.campaigns s.campaignId).finalized = true) :
    exec s (.close caller now) = s := by
  obtain ⟨e, he⟩ := (close_error_iff s caller now).mpr h
  simp [exec, he]

/-! ### Preservation of well-formedness -/

lemma U64_pos : 0 < U64 := by norm_num [U64]

lemma mod_U64_lt (a : Nat) : a % U64 < U64 := Nat.mod_lt _ U64_pos

lemma WF_mkInit (o a t : Address) : WF (mkInit o a t) := by
  refine ⟨le_refl 1, ?_, ?_, ?_, ?_, ?_, ?_⟩ <;>
    simp [mkInit, Handle.uninit, Campaign.default, U64_pos]

lemma WF_exec (s : VRState) (op : Op) (hw : WF s) : WF (exec s op) := by
  obtain ⟨h1, h2, h3, h4, h5, h6, h7⟩ := hw
  have hn : s.nextHid ≠ 0 := by omega
  cases op with
  | configure caller now nm target endTs =>
    by_cases hc : caller = s.owner
    · by_cases he : now < endTs
      · rw [exec_configure_ok s caller now nm target endTs hc he]
        by_cases hb : s.campaignId = 0 ∨ (s.campaigns s.campaignId).finalized
        · rw [configureBody_eq_new s nm target endTs hb hn]
          refine ⟨by show 1 ≤ s.nextHid + 1; omega, h2, h3, h4, h5, ?_, ?_⟩
          · intro k; dsimp only; split_ifs with hk
            · exact U64_pos
            · exact h6 k
          · intro _ _; dsimp only; simp [Handle.isInit, hn]
        · have hb' := hb
          simp only [not_or, Bool.not_eq_true] at hb'
          obtain ⟨h0, hfin⟩ := hb'
          have hi := h7 h0 hfin
          rw [configureBody_eq_inplace s nm target endTs hb hi]
          refine ⟨h1, h2, h3, h4, h5, ?_, ?_⟩
          · intro k; dsimp only; split_ifs with hk
            · exact h6 s.campaignId
            · exact h6 k
          · intro _ _; dsimp only; simpa using hi
      · rw [exec_configure_fail s caller now nm target endTs
          (Or.inr (Nat.not_lt.mp he))]
        exact ⟨h1, h2, h3, h4, h5, h6, h7⟩
    · rw [exec_configure_fail s caller now nm target endTs (Or.inl hc)]
      exact ⟨h1, h2, h3, h4, h5, h6, h7⟩
  | contribute caller now amount =>
    by_cases h0 : s.campaignId = 0
    · rw [exec_contribute_fail s caller now amount (Or.inl h0)]
      exact ⟨h1, h2, h3, h4, h5, h6, h7⟩
    · by_cases hf : (s.campaigns s.campaignId).finalized = true
      · rw [exec_contribute_fail s caller now amount (Or.inr (Or.inl hf))]
        exact ⟨h1, h2, h3, h4, h5, h6, h7⟩
      · by_cases he : (s.campaigns s.campaignId).endTimestamp ≤ now
        · rw [exec_contribute_fail s caller now amount (Or.inr (Or.inr he))]
          exact ⟨h1, h2, h3, h4, h5, h6, h7⟩
        · have hf' : (s.campaigns s.campaignId).finalized = false := by
            revert hf; cases (s.campaigns s.campaignId).finalized <;> simp
          rw [exec_contribute_ok s caller now amount h0 hf' (Nat.not_le.mp he)]
          rw [contributeBody_eq s caller amount]
          refine ⟨by show 1 ≤ s.nextHid + 5; omega, ?_, ?_, ?_, ?_, ?_, ?_⟩
          · intro a; dsimp only; split_ifs with ha hb hcl
            · exact mod_U64_lt _
            · exact mod_U64_lt _
            · exact Nat.lt_of_le_of_lt (Nat.sub_le _ _) (h2 caller)
            · exact h2 a
          · intro a; dsimp only; split_ifs with ha hb hcl
            · intro hcontra; simp at hcontra
            · intro hcontra; simp at hcontra
            · intro hh
              simp only at hh
              have hv := h3 caller hh
              simp only [hv]
              simp
            · exact h3 a
          · intro k a; dsimp only; split_ifs with hk
            · exact mod_U64_lt _
            · exact h4 k a
          · intro k a; dsimp only; split_ifs with hk
            · intro hcontra; simp at hcontra
            · exact h5 k a
          · intro k; dsimp only; split_ifs with hk
            · exact mod_U64_lt _
            · exact h6 k
          · intro _ _; dsimp only; simp [Handle.isInit]
  | close caller now =>
    by_cases hc : caller = s.owner
    · by_cases h0 : s.campaignId = 0
      · rw [exec_close_fail s caller now (Or.inr (Or.inl h0))]
        exact ⟨h1, h2, h3, h4, h5, h6, h7⟩
      · by_cases hf : (s.campaigns s.campaignId).finalized = true
        · rw [exec_close_fail s caller now (Or.inr (Or.inr hf))]
          exact ⟨h1, h2, h3, h4, h5, h6, h7⟩
        · have hf' : (s.campaigns s.campaignId).finalized = false := by
            revert hf; cases (s.campaigns s.campaignId).finalized <;> simp
          rw [exec_close_ok s caller now hc h0 hf']
          by_cases hbal : (s.balances s.selfAddr).isInit = true
          · rw [closeBody_eq_init s hbal]
            refine ⟨by show 1 ≤ s.nextHid + 2; omega, ?_, ?_, h4, h5, ?_, ?_⟩
            · intro a; dsimp only; split_ifs with ha hb hsel
              · exact mod_U64_lt _
              · exact mod_U64_lt _
              · exact U64_pos
              · exact h2 a
            · intro a; dsimp only; split_ifs with ha hb hsel
              · intro hcontra; simp at hcontra
                exact absurd hcontra hn
              · intro hcontra; simp at hcontra
                exact absurd hcontra hn
              · intro _; rfl
              · exact h3 a
            · intro k; dsimp only; split_ifs with hk
              · exact h6 s.campaignId
              · exact h6 k
            · intro _ hcontra; dsimp only at hcontra
              simp at hcontra
          · have hbal0 : (s.balances s.selfAddr).isInit = false := by
              revert hbal; cases (s.balances s.selfAddr).isInit <;> simp
            rw [closeBody_eq_uninit s hbal0]
            refine ⟨by show 1 ≤ s.nextHid + 1; omega, h2, h3, h4, h5, ?_, ?_⟩
            · intro k; dsimp only; split_ifs with hk
              · exact h6 s.campaignId
              · exact h6 k
            · intro _ hcontra; dsimp only at hcontra
              simp at hcontra
    · rw [exec_close_fail s caller now (Or.inl hc)]
      exact ⟨h1, h2, h3, h4, h5, h6, h7⟩
  | mint dst amount =>
    rw [show exec s (.mint dst amount) = mint s dst amount from rfl,
      mint_eq s dst amount]
    refine ⟨by show 1 ≤ s.nextHid + 1; omega, ?_, ?_, h4, h5, h6, h7⟩
    · intro a; dsimp only; split_ifs with ha
      · exact mod_U64_lt _
      · exact h2 a
    · intro a; dsimp only; split_ifs with ha
      · intro hcontra; simp at hcontra
        exact absurd hcontra hn
      · exact h3 a



lemma configureBody_frame (s : VRState) (nm : String) (target endTs : Nat) :
    (configureBody s nm target endTs).contributions = s.contributions ∧
    (configureBody s nm target endTs).owner = s.owner ∧
    (configureBody s nm target endTs).selfAddr = s.selfAddr ∧
    (configureBody s nm target endTs).tokenAddr = s.tokenAddr ∧
    (configureBody s nm target endTs).balances = s.balances ∧
    (configureBody s nm target endTs).grants = s.grants := by
  unfold configureBody
  refine ⟨?_, ?_, ?_, ?_, ?_, ?_⟩ <;>
    (split_ifs <;> simp [setCampaign, freshHandle] <;> split_ifs <;> simp)

lemma configureBody_campaignId_cases (s : VRState) (nm : String) (target endTs : Nat) :
    (configureBody s nm target endTs).campaignId = s.campaignId ∨
    (configureBody s nm target endTs).campaignId = s.campaignId + 1 := by
  unfold configureBody
  split_ifs <;> simp [setCampaign, freshHandle] <;> split_ifs <;> simp

lemma configureBody_campaignId_zero (s : VRState) (nm : String)
    (target endTs : Nat) (h0 : s.campaignId = 0) :
    (configureBody s nm target endTs).campaignId = s.campaignId + 1 := by
  unfold configureBody
  split_ifs with hA
  · simp only [setCampaign, freshHandle]
    split_ifs <;> simp
  · exact absurd (Or.inl h0) hA

lemma configureBody_campaigns_past (s : VRState) (nm : String) (target endTs : Nat)
    (k : Nat) (hk : k < s.campaignId) :
    (configureBody s nm target endTs).campaigns k = s.campaigns k := by
  have hk1 : ¬(k = s.campaignId) := by omega
  have hk2 : ¬(k = s.campaignId + 1) := by omega
  unfold configureBody
  split_ifs <;>
    simp [setCampaign, freshHandle, hk1, hk2] <;> split_ifs <;> simp [hk1, hk2]


lemma closeBody_frame (s : VRState) :
    (closeBody s).1.contributions = s.contributions ∧
    (closeBody s).1.owner = s.owner ∧
    (closeBody s).1.selfAddr = s.selfAddr ∧
    (closeBody s).1.tokenAddr = s.tokenAddr ∧
    (closeBody s).1.campaignId = s.campaignId := by
  cases hb : (s.balances s.selfAddr).isInit with
  | false => rw [closeBody_eq_uninit s hb]; exact ⟨rfl, rfl, rfl, rfl, rfl⟩
  | true => rw [closeBody_eq_init s hb]; exact ⟨rfl, rfl, rfl, rfl, rfl⟩

lemma closeBody_campaigns (s : VRState) (k : Nat) :
    (closeBody s).1.campaigns k =
      if k = s.campaignId
      then { s.campaigns s.campaignId with finalized := true }
      else s.campaigns k := by
  cases hb : (s.balances s.selfAddr).isInit with
  | false => rw [closeBody_eq_uninit s hb]
  | true => rw [closeBody_eq_init s hb]

lemma exec_past_frame (s : VRState) (op : Op) (k : Nat) (hk : k < s.campaignId) :
    (exec s op).campaigns k = s.campaigns k ∧
    (∀ a, (exec s op).contributions k a = s.contributions k a) ∧
    s.campaignId ≤ (exec s op).campaignId := by
  cases op with
  | configure caller now nm target endTs =>
    by_cases hc : caller = s.owner
    · by_cases he : now < endTs
      · rw [exec_configure_ok s caller now nm target endTs hc he]
        refine ⟨configureBody_campaigns_past s nm target endTs k hk, ?_, ?_⟩
        · intro a
          rw [(configureBody_frame s nm target endTs).1]
        · rcases configureBody_campaignId_cases s nm target endTs with h | h <;> omega
      · rw [exec_configure_fail s caller now nm target endTs
          (Or.inr (Nat.not_lt.mp he))]
        exact ⟨rfl, fun a => rfl, le_refl _⟩
    · rw [exec_configure_fail s caller now nm target endTs (Or.inl hc)]
      exact ⟨rfl, fun a => rfl, le_refl _⟩
  | contribute caller now amount =>
    by_cases h0 : s.campaignId = 0
    · rw [exec_contribute_fail s caller now amount (Or.inl h0)]
      exact ⟨rfl, fun a => rfl, le_refl _⟩
    · by_cases hf : (s.campaigns s.campaignId).finalized = true
      · rw [exec_contribute_fail s caller now amount (Or.inr (Or.inl hf))]
        exact ⟨rfl, fun a => rfl, le_refl _⟩
      · by_cases he : (s.campaigns s.campaignId).endTimestamp ≤ now
        · rw [exec_contribute_fail s caller now amount (Or.inr (Or.inr he))]
          exact ⟨rfl, fun a => rfl, le_refl _⟩
        · have hf' : (s.campaigns s.campaignId).finalized = false := by
            revert hf; cases (s.campaigns s.campaignId).finalized <;> simp
          rw [exec_contribute_ok s caller now amount h0 hf' (Nat.not_le.mp he),
            contributeBody_eq s caller amount]
          refine ⟨?_, ?_, le_refl _⟩
          · dsimp only; rw [if_neg (by omega)]
          · intro a; dsimp only
            rw [if_neg (by rintro ⟨hh, _⟩; omega)]
  | close caller now =>
    by_cases hc : caller = s.owner
    · by_cases h0 : s.campaignId = 0
      · rw [exec_close_fail s caller now (Or.inr (Or.inl h0))]
        exact ⟨rfl, fun a => rfl, le_refl _⟩
      · by_cases hf : (s.campaigns s.campaignId).finalized = true
        · rw [exec_close_fail s caller now (Or.inr (Or.inr hf))]
          exact ⟨rfl, fun a => rfl, le_refl _⟩
        · have hf' : (s.campaigns s.campaignId).finalized = false := by
            revert hf; cases (s.campaigns s.campaignId).finalized <;> simp
          rw [exec_close_ok s caller now hc h0 hf']
          refine ⟨?_, ?_, ?_⟩
          · rw [closeBody_campaigns s k, if_neg (by omega)]
          · intro a; rw [(closeBody_frame s).1]
          · rw [(closeBody_frame s).2.2.2.2]
    · rw [exec_close_fail s caller now (Or.inl hc)]
      exact ⟨rfl, fun a => rfl, le_refl _⟩
  | mint dst amount =>
    rw [show exec s (.mint dst amount) = mint s dst amount from rfl,
      mint_eq s dst amount]
    exact ⟨rfl, fun a => rfl, le_refl _⟩


lemma exec_finalized_step (s : VRState) (op : Op) (k : Nat) (hw : WF s)
    (hk : k ≤ s.campaignId) (hfin : (s.campaigns k).finalized = true) :
    ((exec s op).campaigns k).finalized = true ∧
    (∀ a, (exec s op).contributions k a = s.contributions k a) ∧
    k ≤ (exec s op).campaignId := by
  have hn : s.nextHid ≠ 0 := by have := hw.nextHid_pos; omega
  rcases Nat.lt_or_ge k s.campaignId with hlt | hge
  · obtain ⟨hcamp, hcontrib, hle⟩ := exec_past_frame s op k hlt
    exact ⟨hcamp ▸ hfin, hcontrib, by omega⟩
  · have hkeq : k = s.campaignId := le_antisymm hk hge
    subst hkeq
    cases op with
    | configure caller now nm target endTs =>
      by_cases hc : caller = s.owner
      · by_cases he : now < endTs
        · rw [exec_configure_ok s caller now nm target endTs hc he]
          have hb : s.campaignId = 0 ∨ (s.campaigns s.campaignId).finalized :=
            Or.inr (by simp [hfin])
          rw [configureBody_eq_new s nm target endTs hb hn]
          refine ⟨?_, fun a => rfl, ?_⟩
          · dsimp only
            rw [if_neg (by omega)]
            exact hfin
          · dsimp only; omega
        · rw [exec_configure_fail s caller now nm target endTs
            (Or.inr (Nat.not_lt.mp he))]
          exact ⟨hfin, fun a => rfl, le_refl _⟩
      · rw [exec_configure_fail s caller now nm target endTs (Or.inl hc)]
        exact ⟨hfin, fun a => rfl, le_refl _⟩
    | contribute caller now amount =>
      rw [exec_contribute_fail s caller now amount (Or.inr (Or.inl hfin))]
      exact ⟨hfin, fun a => rfl, le_refl _⟩
    | close caller now =>
      rw [exec_close_fail s caller now (Or.inr (Or.inr hfin))]
      exact ⟨hfin, fun a => rfl, le_refl _⟩
    | mint dst amount =>
      rw [show exec s (.mint dst amount) = mint s dst amount from rfl,
        mint_eq s dst amount]
      exact ⟨hfin, fun a => rfl, le_refl _⟩

lemma run_finalized (s : VRState) (ops : List Op) (k : Nat) (hw : WF s)
    (hk : k ≤ s.campaignId) (hfin : (s.campaigns k).finalized = true) :
    ((run s ops).campaigns k).finalized = true ∧
    (∀ a, (run s ops).contributions k a = s.contributions k a) ∧
    k ≤ (run s ops).campaignId := by
  induction ops generalizing s with
  | nil => exact ⟨hfin, fun a => rfl, hk⟩
  | cons op rest ih =>
    obtain ⟨h1, h2, h3⟩ := exec_finalized_step s op k hw hk hfin
    obtain ⟨g1, g2, g3⟩ := ih (exec s op) (WF_exec s op hw) h3 h1
    exact ⟨g1, fun a => (g2 a).trans (h2 a), g3⟩

/-! ## Claim theorems -/

/-- C5: `contribute` fails — leaving every part of the ledger state
unchanged — precisely when no campaign is configured (`campaignId = 0`), when
the current campaign is finalized, or when the current time is greater than or
equal to the campaign's end time. -/
theorem contribute_failure_characterization :
    ∀ (s : VRState) (caller now amount : Nat),
      ((∃ e, contribute s caller now amount = .error e) ↔
        s.campaignId = 0 ∨ (s.campaigns s.campaignId).finalized = true ∨
        (s.campaigns s.campaignId).endTimestamp ≤ now) ∧
      ((∃ e, contribute s caller now amount = .error e) →
        exec s (.contribute caller now amount) = s) := by
  intro s caller now amount
  refine ⟨contribute_error_iff s caller now amount, ?_⟩
  rintro ⟨e, he⟩
  simp [exec, he]

/-- C7: `getCampaign` and `activeCampaignId` fail exactly when no campaign
exists (`campaignId = 0`); `getContribution` is a bare mapping read (it cannot
fail) and yields the empty zero handle for any pair with no recorded
contribution; `isActive` (total, never fails) is false exactly when
`campaignId = 0`, the current campaign is finalized, or the current time has
reached the end time. -/
theorem accessor_behavior :
    ∀ (s : VRState) (now id c : Nat) (o a t : Address),
      ((∃ e, getCampaign s = .error e) ↔ s.campaignId = 0) ∧
      ((∃ e, activeCampaignId s = .error e) ↔ s.campaignId = 0) ∧
      (s.campaignId ≠ 0 → activeCampaignId s = .ok s.campaignId) ∧
      getContribution s id c = s.contributions id c ∧
      getContribution (mkInit o a t) id c = Handle.uninit ∧
      (isActive s now = false ↔
        (s.campaignId = 0 ∨ (s.campaigns s.campaignId).finalized = true ∨
         (s.campaigns s.campaignId).endTimestamp ≤ now)) := by
  intro s now id c o a t
  refine ⟨?_, ?_, ?_, rfl, rfl, ?_⟩
  · by_cases h0 : s.campaignId = 0 <;> simp [getCampaign, h0]
  · by_cases h0 : s.campaignId = 0 <;> simp [activeCampaignId, h0]
  · intro h0; simp [activeCampaignId, h0]
  · by_cases h0 : s.campaignId = 0
    · simp [isActive, h0]
    · by_cases hf : (s.campaigns s.campaignId).finalized = true
      · simp [isActive, h0, hf]
      · by_cases he : (s.campaigns s.campaignId).endTimestamp ≤ now <;>
          simp [isActive, h0, hf, he, Nat.not_lt, Nat.lt_iff_add_one_le]

/-- C9: `closeCampaign` has no deadline precondition — for any `now`
(including times strictly before the end timestamp) an owner call on a
configured, unfinalized campaign succeeds; it fails exactly for a non-owner
caller, an unconfigured ledger, or an already-finalized campaign; and a
successful close immediately and permanently makes that campaign id reject
all further contributions. -/
theorem closeCampaign_no_deadline :
    ∀ (s : VRState) (caller now : Nat) (ops : List Op) (caller2 now2 amount : Nat),
      (caller = s.owner → s.campaignId ≠ 0 →
        (s.campaigns s.campaignId).finalized = false →
        closeCampaign s caller now = .ok (closeBody s)) ∧
      ((∃ e, closeCampaign s caller now = .error e) ↔
        (caller ≠ s.owner ∨ s.campaignId = 0 ∨
         (s.campaigns s.campaignId).finalized = true)) ∧
      (WF s → caller = s.owner → s.campaignId ≠ 0 →
        (s.campaigns s.campaignId).finalized = false →
        (((run (exec s (.close caller now)) ops).campaignId = s.campaignId →
           ∃ e, contribute (run (exec s (.close caller now)) ops)
             caller2 now2 amount = .error e) ∧
         (∀ a2, (run (exec s (.close caller now)) ops).contributions
             s.campaignId a2 = s.contributions s.campaignId a2))) := by
  intro s caller now ops caller2 now2 amount
  refine ⟨fun hc h0 hf => close_eq_ok s caller now hc h0 hf, close_error_iff s caller now, ?_⟩
  intro hw hc h0 hf
  rw [exec_close_ok s caller now hc h0 hf]
  have hid : (closeBody s).1.campaignId = s.campaignId := (closeBody_frame s).2.2.2.2
  have hfin : ((closeBody s).1.campaigns s.campaignId).finalized = true := by
    rw [closeBody_campaigns s s.campaignId, if_pos rfl]
  have hw' : WF (closeBody s).1 := by
    have := WF_exec s (.close caller now) hw
    rwa [exec_close_ok s caller now hc h0 hf] at this
  obtain ⟨g1, g2, g3⟩ := run_finalized (closeBody s).1 ops s.campaignId hw'
    (le_of_eq hid.symm) hfin
  constructor
  · intro hcur
    refine (contribute_error_iff _ caller2 now2 amount).mpr ?_
    exact Or.inr (Or.inl (by rw [hcur]; exact g1))
  · intro a2
    rw [g2 a2, (closeBody_frame s).1]

/-- C4: `configureCampaign` is owner-only and rejects a non-future end time;
with no campaign yet or a finalized current campaign it allocates id
`campaignId + 1` (first call yields 1) with an encrypted-zero total;
otherwise it overwrites only `name`, `targetAmount` and `endTimestamp` of the
current campaign in place, preserving `campaignId`, the accumulated total and
all contribution entries; every successful call leaves a nonzero campaign
id. -/
theorem configureCampaign_behavior :
    ∀ (s : VRState) (caller now : Nat) (nm : String) (target endTs : Nat)
      (o a t : Address),
      ((∃ e, configureCampaign s caller now nm target endTs = .error e) ↔
        caller ≠ s.owner ∨ endTs ≤ now) ∧
      (caller = s.owner → now < endTs →
        configureCampaign s caller now nm target endTs =
          .ok (configureBody s nm target endTs)) ∧
      ((s.campaignId = 0 ∨ (s.campaigns s.campaignId).finalized = true) →
        s.nextHid ≠ 0 →
        (configureBody s nm target endTs).campaignId = s.campaignId + 1 ∧
        (configureBody s nm target endTs).campaigns (s.campaignId + 1) =
          { name := nm, targetAmount := target, endTimestamp := endTs,
            finalized := false, totalRaised := ⟨s.nextHid, 0⟩ } ∧
        (∀ k c, (configureBody s nm target endTs).contributions k c =
          s.contributions k c)) ∧
      (s.campaignId ≠ 0 → (s.campaigns s.campaignId).finalized = false →
        ((s.campaigns s.campaignId).totalRaised).isInit = true →
        (configureBody s nm target endTs).campaignId = s.campaignId ∧
        (configureBody s nm target endTs).campaigns s.campaignId =
          { s.campaigns s.campaignId with
              name := nm, targetAmount := target, endTimestamp := endTs } ∧
        (∀ k, k ≠ s.campaignId →
          (configureBody s nm target endTs).campaigns k = s.campaigns k) ∧
        (∀ k c, (configureBody s nm target endTs).contributions k c =
          s.contributions k c)) ∧
      (now < endTs →
        (exec (mkInit o a t) (.configure o now nm target endTs)).campaignId = 1) ∧
      (caller = s.owner → now < endTs →
        1 ≤ (exec s (.configure caller now nm target endTs)).campaignId) := by
  intro s caller now nm target endTs o a t
  refine ⟨configure_error_iff s caller now nm target endTs,
    fun hc he => configure_eq_ok s caller now nm target endTs hc he, ?_, ?_, ?_, ?_⟩
  · intro hb hn
    have hb' : s.campaignId = 0 ∨ (s.campaigns s.campaignId).finalized := by
      rcases hb with h | h
      · exact Or.inl h
      · exact Or.inr (by simp [h])
    rw [configureBody_eq_new s nm target endTs hb' hn]
    refine ⟨rfl, ?_, fun k c => rfl⟩
    dsimp only
    rw [if_pos rfl]
  · intro h0 hf hi
    have hb : ¬(s.campaignId = 0 ∨ (s.campaigns s.campaignId).finalized) := by
      rintro (h | h)
      · exact h0 h
      · rw [hf] at h; exact Bool.false_ne_true h
    rw [configureBody_eq_inplace s nm target endTs hb hi]
    refine ⟨rfl, ?_, ?_, fun k c => rfl⟩
    · dsimp only
      rw [if_pos rfl, hf]
    · intro k hk
      dsimp only
      rw [if_neg hk]
  · intro he
    rw [exec_configure_ok (mkInit o a t) o now nm target endTs rfl he]
    have hb : (mkInit o a t).campaignId = 0 ∨
        ((mkInit o a t).campaigns (mkInit o a t).campaignId).finalized :=
      Or.inl rfl
    rw [configureBody_eq_new (mkInit o a t) nm target endTs hb (by simp [mkInit])]
    rfl
  · intro hc he
    rw [exec_configure_ok s caller now nm target endTs hc he]
    by_cases h0 : s.campaignId = 0
    · rw [configureBody_campaignId_zero s nm target endTs h0]
      omega
    · rcases configureBody_campaignId_cases s nm target endTs with h | h <;> omega

/-- C2: `closeCampaign` is owner-only and fails when no campaign exists or the
current one is already finalized; otherwise it succeeds exactly once — setting
`finalized` from false to true with the id unchanged, after which every later
`closeCampaign` fails — and it pays the contract's entire encrypted token
balance (an uninitialized balance counting as zero) to the owner, so that when
the pre-close contract balance decrypts to the campaign aggregate the owner's
decrypted balance grows by exactly that aggregate and the contract balance
drops to zero. -/
theorem closeCampaign_behavior :
    ∀ (s : VRState) (caller now : Nat),
      ((∃ e, closeCampaign s caller now = .error e) ↔
        (caller ≠ s.owner ∨ s.campaignId = 0 ∨
         (s.campaigns s.campaignId).finalized = true)) ∧
      (caller = s.owner → s.campaignId ≠ 0 →
        (s.campaigns s.campaignId).finalized = false →
        (closeCampaign s caller now = .ok (closeBody s) ∧
         ((closeBody s).1.campaigns s.campaignId).finalized = true ∧
         (closeBody s).1.campaignId = s.campaignId ∧
         (∀ caller2 now2, ∃ e,
           closeCampaign (closeBody s).1 caller2 now2 = .error e) ∧
         (WF s →
          (s.balances s.selfAddr).val = ((s.campaigns s.campaignId).totalRaised).val →
          s.owner ≠ s.selfAddr →
          (s.balances s.owner).val + ((s.campaigns s.campaignId).totalRaised).val < U64 →
          ((closeBody s).1.balances s.owner).val =
            (s.balances s.owner).val + ((s.campaigns s.campaignId).totalRaised).val ∧
          ((closeBody s).1.balances s.selfAddr).val = 0))) := by
  intro s caller now
  refine ⟨close_error_iff s caller now, ?_⟩
  intro hc h0 hf
  have hfin : ((closeBody s).1.campaigns s.campaignId).finalized = true := by
    rw [closeBody_campaigns s s.campaignId, if_pos rfl]
  have hid : (closeBody s).1.campaignId = s.campaignId := (closeBody_frame s).2.2.2.2
  refine ⟨close_eq_ok s caller now hc h0 hf, hfin, hid, ?_, ?_⟩
  · intro caller2 now2
    by_cases hc2 : caller2 = (closeBody s).1.owner
    · exact (close_error_iff _ caller2 now2).mpr
        (Or.inr (Or.inr (by rw [hid]; exact hfin)))
    · exact (close_error_iff _ caller2 now2).mpr (Or.inl hc2)
  · intro hw hbal hos hsum
    cases hbi : (s.balances s.selfAddr).isInit with
    | false =>
      rw [closeBody_eq_uninit s hbi]
      have hz : (s.balances s.selfAddr).val = 0 :=
        hw.bal_uninit _ (by simpa [Handle.isInit] using hbi)
      constructor
      · dsimp only
        rw [← hbal, hz, Nat.add_zero]
      · dsimp only
        exact hz
    | true =>
      rw [closeBody_eq_init s hbi]
      constructor
      · dsimp only
        rw [if_pos rfl, if_neg (fun hh => hos hh)]
        rw [← hbal]
        exact Nat.mod_eq_of_lt (hbal ▸ hsum)
      · dsimp only
        rw [if_neg (fun hh => hos hh.symm), if_pos rfl]


lemma sumAmounts_cons (e : CEntry) (cs : List CEntry) :
    sumAmounts (e :: cs) = e.2.2 + sumAmounts cs := by
  simp [sumAmounts]

lemma sumAmountsOf_cons (a : Address) (e : CEntry) (cs : List CEntry) :
    sumAmountsOf a (e :: cs) =
      if e.1 = a then e.2.2 + sumAmountsOf a cs else sumAmountsOf a cs := by
  by_cases h : e.1 = a <;> simp [sumAmountsOf, sumAmounts, List.filter_cons, h]

lemma cb_campaignId (s : VRState) (c amt : Nat) :
    (contributeBody s c amt).1.campaignId = s.campaignId := by
  rw [contributeBody_eq]

lemma cb_campaigns (s : VRState) (c amt k : Nat) :
    (contributeBody s c amt).1.campaigns k =
    if k = s.campaignId
    then { s.campaigns s.campaignId with totalRaised :=
      ⟨s.nextHid + 4, (((s.campaigns s.campaignId).totalRaised).val + amt % U64) % U64⟩ }
    else s.campaigns k := by
  rw [contributeBody_eq]

lemma cb_contributions (s : VRState) (c amt k a : Nat) :
    (contributeBody s c amt).1.contributions k a =
    if k = s.campaignId ∧ a = c
    then ⟨s.nextHid + 3, ((s.contributions s.campaignId c).val + amt % U64) % U64⟩
    else s.contributions k a := by
  rw [contributeBody_eq]

lemma runContribs_invariant (cs : List CEntry) :
    ∀ (s : VRState) (k : Nat),
      s.campaignId = k → k ≠ 0 →
      (s.campaigns k).finalized = false →
      (∀ e ∈ cs, e.2.1 < (s.campaigns k).endTimestamp) →
      (∀ e ∈ cs, e.2.2 < U64) →
      (∀ a, (s.contributions k a).val < U64) →
      (((s.campaigns k).totalRaised).val < U64) →
      (runContribs s cs).campaignId = k ∧
      ((runContribs s cs).campaigns k).finalized = false ∧
      ((runContribs s cs).campaigns k).endTimestamp = (s.campaigns k).endTimestamp ∧
      (∀ a, ((runContribs s cs).contributions k a).val =
        ((s.contributions k a).val + sumAmountsOf a cs) % U64) ∧
      (((runContribs s cs).campaigns k).totalRaised).val =
        (((s.campaigns k).totalRaised).val + sumAmounts cs) % U64 := by
  induction cs with
  | nil =>
    intro s k hid h0 hf _ _ hcv htv
    refine ⟨hid, hf, rfl, ?_, ?_⟩
    · intro a
      simp [runContribs, sumAmountsOf, sumAmounts, Nat.mod_eq_of_lt (hcv a)]
    · simp [runContribs, sumAmounts, Nat.mod_eq_of_lt htv]
  | cons e rest ih =>
    intro s k hid h0 hf hend hamt hcv htv
    have h0' : s.campaignId ≠ 0 := by rw [hid]; exact h0
    have hf' : (s.campaigns s.campaignId).finalized = false := by rw [hid]; exact hf
    have hee : e.2.1 < (s.campaigns s.campaignId).endTimestamp := by
      rw [hid]; exact hend e (List.mem_cons_self e rest)
    have hstep : contribCall s e = (contributeBody s e.1 e.2.2).1 := by
      unfold contribCall
      exact exec_contribute_ok s e.1 e.2.1 e.2.2 h0' hf' hee
    have hrun : runContribs s (e :: rest) = runContribs (contribCall s e) rest := rfl
    have hae : e.2.2 % U64 = e.2.2 :=
      Nat.mod_eq_of_lt (hamt e (List.mem_cons_self e rest))
    have hksym : k = s.campaignId := hid.symm
    have hcampk : (contributeBody s e.1 e.2.2).1.campaigns k =
        { s.campaigns k with totalRaised :=
          ⟨s.nextHid + 4, (((s.campaigns k).totalRaised).val + e.2.2) % U64⟩ } := by
      rw [cb_campaigns, if_pos hksym, hae, ← hksym]
    obtain ⟨g1, g2, g3, g4, g5⟩ := ih ((contributeBody s e.1 e.2.2).1) k
      (by rw [cb_campaignId, hid])
      h0
      (by rw [hcampk]; exact hf)
      (by rw [hcampk]; intro e' he'; exact hend e' (List.mem_cons_of_mem e he'))
      (fun e' he' => hamt e' (List.mem_cons_of_mem e he'))
      (by
        intro a
        rw [cb_contributions]
        split_ifs with hcond
        · exact mod_U64_lt _
        · exact hcv a)
      (by rw [hcampk]; exact mod_U64_lt _)
    rw [hrun, hstep]
    refine ⟨g1, g2, ?_, ?_, ?_⟩
    · rw [g3, hcampk]
    · intro a
      rw [g4 a, cb_contributions]
      by_cases ha : a = e.1
      · subst ha
        rw [if_pos ⟨hksym, rfl⟩, hae, sumAmountsOf_cons, if_pos rfl]
        dsimp only
        rw [← hksym, Nat.mod_add_mod, Nat.add_assoc]
      · rw [if_neg (fun hcond => ha hcond.2), sumAmountsOf_cons,
          if_neg (fun hh => ha hh.symm)]
    · rw [g5, hcampk, sumAmounts_cons]
      dsimp only
      rw [Nat.mod_add_mod, Nat.add_assoc]



lemma cb_snd (s : VRState) (c amt : Nat) :
    (contributeBody s c amt).2 =
      ⟨s.nextHid + 3, ((s.contributions s.campaignId c).val + amt % U64) % U64⟩ := by
  rw [contributeBody_eq]

lemma sumAmountsOf_le (a : Address) (cs : List CEntry) :
    sumAmountsOf a cs ≤ sumAmounts cs := by
  induction cs with
  | nil => simp [sumAmountsOf, sumAmounts]
  | cons e rest ih =>
    rw [sumAmountsOf_cons, sumAmounts_cons]
    split_ifs <;> omega

/-- C1: starting from a campaign with zero totals, any sequence of successful
`contribute` calls leaves each contributor's decrypted running total equal to
the sum of that contributor's plaintext amounts and the decrypted aggregate
equal to the sum across all contributors, and each `contribute` returns the
caller's updated per-contributor handle. -/
theorem contribute_accumulates_sums
    (s : VRState) (cs : List CEntry) (k : Nat)
    (hid : s.campaignId = k) (h0 : k ≠ 0)
    (hf : (s.campaigns k).finalized = false)
    (hend : ∀ e ∈ cs, e.2.1 < (s.campaigns k).endTimestamp)
    (hamt : ∀ e ∈ cs, e.2.2 < U64)
    (hzero : ∀ a, (s.contributions k a).val = 0)
    (htzero : ((s.campaigns k).totalRaised).val = 0)
    (hsum : sumAmounts cs < U64) :
    (∀ a, ((runContribs s cs).contributions k a).val = sumAmountsOf a cs) ∧
    (((runContribs s cs).campaigns k).totalRaised).val = sumAmounts cs ∧
    (∀ (t : VRState) (caller now amount : Nat) (st : VRState) (h : Handle),
      contribute t caller now amount = .ok (st, h) →
      h = st.contributions st.campaignId caller) := by
  obtain ⟨g1, g2, g3, g4, g5⟩ := runContribs_invariant cs s k hid h0 hf hend hamt
    (fun a => by rw [hzero a]; exact U64_pos)
    (by rw [htzero]; exact U64_pos)
  refine ⟨?_, ?_, ?_⟩
  · intro a
    rw [g4 a, hzero a, Nat.zero_add,
      Nat.mod_eq_of_lt (lt_of_le_of_lt (sumAmountsOf_le a cs) hsum)]
  · rw [g5, htzero, Nat.zero_add, Nat.mod_eq_of_lt hsum]
  · intro t caller now amount st h hok
    by_cases ht0 : t.campaignId = 0
    · simp [contribute, ht0] at hok
    by_cases htf : (t.campaigns t.campaignId).finalized = true
    · simp [contribute, ht0, htf] at hok
    by_cases hte : (t.campaigns t.campaignId).endTimestamp ≤ now
    · simp [contribute, ht0, htf, hte] at hok
    have htf' : (t.campaigns t.campaignId).finalized = false := by
      revert htf; cases (t.campaigns t.campaignId).finalized <;> simp
    rw [contribute_eq_ok t caller now amount ht0 htf' (Nat.not_le.mp hte)] at hok
    simp only [Except.ok.injEq] at hok
    have hst : st = (contributeBody t caller amount).1 := (congrArg Prod.fst hok).symm
    have hh : h = (contributeBody t caller amount).2 := (congrArg Prod.snd hok).symm
    rw [hh, hst, cb_snd, cb_campaignId, cb_contributions, if_pos ⟨rfl, rfl⟩]



/-- C10: an expired but unfinalized campaign can be re-opened under the same
id: while expired, `isActive` is false and `contribute` fails; an owner
reconfigure with a strictly future end time succeeds, keeps the id, preserves
the accumulated encrypted total and every per-contributor entry, makes
`isActive` true again, and contributions then resume accumulating into the
same totals. -/
theorem reconfigure_expired_campaign
    (s : VRState) (now : Nat) (nm : String) (target endTs : Nat)
    (h0 : s.campaignId ≠ 0)
    (hf : (s.campaigns s.campaignId).finalized = false)
    (hi : ((s.campaigns s.campaignId).totalRaised).isInit = true)
    (hexp : (s.campaigns s.campaignId).endTimestamp ≤ now)
    (hfut : now < endTs) :
    isActive s now = false ∧
    (∀ c amt, ∃ e, contribute s c now amt = .error e) ∧
    configureCampaign s s.owner now nm target endTs =
      .ok (configureBody s nm target endTs) ∧
    (configureBody s nm target endTs).campaignId = s.campaignId ∧
    ((configureBody s nm target endTs).campaigns s.campaignId).totalRaised =
      (s.campaigns s.campaignId).totalRaised ∧
    (∀ k c, (configureBody s nm target endTs).contributions k c =
      s.contributions k c) ∧
    (∀ t2, t2 < endTs → isActive (configureBody s nm target endTs) t2 = true) ∧
    (∀ c t2 amt, t2 < endTs →
      ∃ st h, contribute (configureBody s nm target endTs) c t2 amt = .ok (st, h) ∧
        (st.contributions s.campaignId c).val =
          ((s.contributions s.campaignId c).val + amt % U64) % U64 ∧
        ((st.campaigns s.campaignId).totalRaised).val =
          (((s.campaigns s.campaignId).totalRaised).val + amt % U64) % U64) := by
  have hb : ¬(s.campaignId = 0 ∨ (s.campaigns s.campaignId).finalized) := by
    rintro (h | h)
    · exact h0 h
    · rw [hf] at h; exact Bool.false_ne_true h
  have hcfg := configureBody_eq_inplace s nm target endTs hb hi
  refine ⟨?_, ?_, configure_eq_ok s s.owner now nm target endTs rfl hfut, ?_, ?_, ?_, ?_, ?_⟩
  · simp [isActive, h0, hf, Nat.not_lt.mpr hexp]
  · intro c amt
    exact (contribute_error_iff s c now amt).mpr (Or.inr (Or.inr hexp))
  · rw [hcfg]
  · rw [hcfg]
    dsimp only
    rw [if_pos rfl]
  · intro k c
    rw [hcfg]
  · intro t2 ht2
    rw [hcfg]
    simp [isActive, h0, ht2]
  · intro c t2 amt ht2
    have hcb0 : (configureBody s nm target endTs).campaignId ≠ 0 := by
      rw [hcfg]; exact h0
    have hcbf : ((configureBody s nm target endTs).campaigns
        (configureBody s nm target endTs).campaignId).finalized = false := by
      rw [hcfg]; dsimp only; rw [if_pos rfl]
    have hcbe : t2 < ((configureBody s nm target endTs).campaigns
        (configureBody s nm target endTs).campaignId).endTimestamp := by
      rw [hcfg]; dsimp only; rw [if_pos rfl]; exact ht2
    refine ⟨(contributeBody (configureBody s nm target endTs) c amt).1,
      (contributeBody (configureBody s nm target endTs) c amt).2, ?_, ?_, ?_⟩
    · rw [contribute_eq_ok _ c t2 amt hcb0 hcbf hcbe]
    · rw [cb_contributions, hcfg]
      dsimp only
      rw [if_pos ⟨rfl, rfl⟩]
    · rw [cb_campaigns, hcfg]
      dsimp only
      rw [if_pos rfl, if_pos rfl]


/-- C6: past campaign ids are immutable history (no operation modifies a
campaign or contribution entry with id below the current `campaignId`); a
contribution entry changes only by a successful `contribute` by that
contributor to the current campaign, which adds the amount (and initializes
the entry, lazily, on first contribution); a campaign total changes only by
such an addition or by being reset to an encrypted zero at the creation of a
fresh campaign id. -/
theorem ledger_immutability (s : VRState) (op : Op) (hw : WF s) :
    (∀ k, k < s.campaignId →
      (exec s op).campaigns k = s.campaigns k ∧
      (∀ c, (exec s op).contributions k c = s.contributions k c)) ∧
    (∀ k c, (exec s op).contributions k c ≠ s.contributions k c →
      ∃ now amount, op = .contribute c now amount ∧ k = s.campaignId ∧
        s.campaignId ≠ 0 ∧ (s.campaigns k).finalized = false ∧
        now < (s.campaigns k).endTimestamp ∧
        ((exec s op).contributions k c).val =
          ((s.contributions k c).val + amount % U64) % U64 ∧
        ((exec s op).contributions k c).isInit = true) ∧
    (∀ k, ((exec s op).campaigns k).totalRaised ≠ (s.campaigns k).totalRaised →
      (∃ c now amount, op = .contribute c now amount ∧ k = s.campaignId ∧
        s.campaignId ≠ 0 ∧ (s.campaigns k).finalized = false ∧
        now < (s.campaigns k).endTimestamp ∧
        (((exec s op).campaigns k).totalRaised).val =
          (((s.campaigns k).totalRaised).val + amount % U64) % U64) ∨
      (∃ caller now nm target endTs,
        op = .configure caller now nm target endTs ∧
        k = s.campaignId + 1 ∧
        (s.campaignId = 0 ∨ (s.campaigns s.campaignId).finalized = true) ∧
        (((exec s op).campaigns k).totalRaised).val = 0)) := by
  have hn : s.nextHid ≠ 0 := by have := hw.nextHid_pos; omega
  refine ⟨fun k hk => ⟨(exec_past_frame s op k hk).1, (exec_past_frame s op k hk).2.1⟩,
    ?_, ?_⟩
  · intro k c hne
    cases op with
    | configure caller now nm target endTs =>
      exfalso; apply hne
      by_cases hc : caller = s.owner
      · by_cases he : now < endTs
        · rw [exec_configure_ok s caller now nm target endTs hc he]
          exact congrFun (congrFun (configureBody_frame s nm target endTs).1 k) c
        · rw [exec_configure_fail s caller now nm target endTs
            (Or.inr (Nat.not_lt.mp he))]
      · rw [exec_configure_fail s caller now nm target endTs (Or.inl hc)]
    | contribute caller now amount =>
      by_cases h0 : s.campaignId = 0
      · rw [exec_contribute_fail s caller now amount (Or.inl h0)] at hne ⊢
        exact absurd rfl hne
      · by_cases hf : (s.campaigns s.campaignId).finalized = true
        · rw [exec_contribute_fail s caller now amount (Or.inr (Or.inl hf))] at hne ⊢
          exact absurd rfl hne
        · by_cases he : (s.campaigns s.campaignId).endTimestamp ≤ now
          · rw [exec_contribute_fail s caller now amount (Or.inr (Or.inr he))] at hne ⊢
            exact absurd rfl hne
          · have hf' : (s.campaigns s.campaignId).finalized = false := by
              revert hf; cases (s.campaigns s.campaignId).finalized <;> simp
            rw [exec_contribute_ok s caller now amount h0 hf' (Nat.not_le.mp he)]
              at hne ⊢
            rw [cb_contributions] at hne ⊢
            by_cases hcond : k = s.campaignId ∧ c = caller
            · obtain ⟨hk, hc⟩ := hcond
              subst hc
              refine ⟨now, amount, rfl, hk, h0, hk ▸ hf', hk ▸ Nat.not_le.mp he, ?_, ?_⟩
              · rw [if_pos ⟨hk, rfl⟩, ← hk]
              · rw [if_pos ⟨hk, rfl⟩]
                simp [Handle.isInit]
            · rw [if_neg hcond] at hne
              exact absurd rfl hne
    | close caller now =>
      exfalso; apply hne
      by_cases hc : caller = s.owner
      · by_cases h0 : s.campaignId = 0
        · rw [exec_close_fail s caller now (Or.inr (Or.inl h0))]
        · by_cases hf : (s.campaigns s.campaignId).finalized = true
          · rw [exec_close_fail s caller now (Or.inr (Or.inr hf))]
          · have hf' : (s.campaigns s.campaignId).finalized = false := by
              revert hf; cases (s.campaigns s.campaignId).finalized <;> simp
            rw [exec_close_ok s caller now hc h0 hf']
            exact congrFun (congrFun (closeBody_frame s).1 k) c
      · rw [exec_close_fail s caller now (Or.inl hc)]
    | mint dst amount =>
      exfalso; exact hne rfl
  · intro k hne
    cases op with
    | configure caller now nm target endTs =>
      by_cases hc : caller = s.owner
      · by_cases he : now < endTs
        · rw [exec_configure_ok s caller now nm target endTs hc he] at hne ⊢
          by_cases hb : s.campaignId = 0 ∨ (s.campaigns s.campaignId).finalized
          · rw [configureBody_eq_new s nm target endTs hb hn] at hne ⊢
            dsimp only at hne ⊢
            by_cases hk : k = s.campaignId + 1
            · refine Or.inr ⟨caller, now, nm, target, endTs, rfl, hk, ?_, ?_⟩
              · rcases hb with h | h
                · exact Or.inl h
                · exact Or.inr (by simpa using h)
              · rw [if_pos hk]
            · rw [if_neg hk] at hne
              exact absurd rfl hne
          · have hb' := hb
            simp only [not_or, Bool.not_eq_true] at hb'
            obtain ⟨h0, hfin⟩ := hb'
            have hi := hw.total_init h0 hfin
            rw [configureBody_eq_inplace s nm target endTs hb hi] at hne
            exfalso; apply hne
            dsimp only
            by_cases hk : k = s.campaignId
            · rw [if_pos hk, hk]
            · rw [if_neg hk]
        · rw [exec_configure_fail s caller now nm target endTs
            (Or.inr (Nat.not_lt.mp he))] at hne
          exact absurd rfl hne
      · rw [exec_configure_fail s caller now nm target endTs (Or.inl hc)] at hne
        exact absurd rfl hne
    | contribute caller now amount =>
      by_cases h0 : s.campaignId = 0
      · rw [exec_contribute_fail s caller now amount (Or.inl h0)] at hne
        exact absurd rfl hne
      · by_cases hf : (s.campaigns s.campaignId).finalized = true
        · rw [exec_contribute_fail s caller now amount (Or.inr (Or.inl hf))] at hne
          exact absurd rfl hne
        · by_cases he : (s.campaigns s.campaignId).endTimestamp ≤ now
          · rw [exec_contribute_fail s caller now amount (Or.inr (Or.inr he))] at hne
            exact absurd rfl hne
          · have hf' : (s.campaigns s.campaignId).finalized = false := by
              revert hf; cases (s.campaigns s.campaignId).finalized <;> simp
            rw [exec_contribute_ok s caller now amount h0 hf' (Nat.not_le.mp he)]
              at hne ⊢
            rw [cb_campaigns] at hne ⊢
            by_cases hk : k = s.campaignId
            · refine Or.inl ⟨caller, now, amount, rfl, hk, h0, hk ▸ hf',
                hk ▸ Nat.not_le.mp he, ?_⟩
              rw [if_pos hk, ← hk]
            · rw [if_neg hk] at hne
              exact absurd rfl hne
    | close caller now =>
      exfalso; apply hne
      by_cases hc : caller = s.owner
      · by_cases h0 : s.campaignId = 0
        · rw [exec_close_fail s caller now (Or.inr (Or.inl h0))]
        · by_cases hf : (s.campaigns s.campaignId).finalized = true
          · rw [exec_close_fail s caller now (Or.inr (Or.inr hf))]
          · have hf' : (s.campaigns s.campaignId).finalized = false := by
              revert hf; cases (s.campaigns s.campaignId).finalized <;> simp
            rw [exec_close_ok s caller now hc h0 hf', closeBody_campaigns s k]
            by_cases hk : k = s.campaignId
            · rw [if_pos hk, hk]
            · rw [if_neg hk]
      · rw [exec_close_fail s caller now (Or.inl hc)]
    | mint dst amount =>
      exfalso; exact hne rfl


lemma cb_grants (s : VRState) (c amt : Nat) :
    (contributeBody s c amt).1.grants =
    ⟨s.owner, s.nextHid + 4, .aggregate s.campaignId⟩ ::
    ⟨s.selfAddr, s.nextHid + 4, .aggregate s.campaignId⟩ ::
    ⟨c, s.nextHid + 3, .contribTotal s.campaignId c⟩ ::
    ⟨s.selfAddr, s.nextHid + 3, .contribTotal s.campaignId c⟩ ::
    ⟨s.tokenAddr, s.nextHid, .inputAmt c⟩ ::
    ⟨s.selfAddr, s.nextHid, .inputAmt c⟩ :: s.grants := by
  rw [contributeBody_eq]

lemma cb_owner (s : VRState) (c amt : Nat) :
    (contributeBody s c amt).1.owner = s.owner := by
  rw [contributeBody_eq]

lemma cb_selfAddr (s : VRState) (c amt : Nat) :
    (contributeBody s c amt).1.selfAddr = s.selfAddr := by
  rw [contributeBody_eq]

lemma cb_tokenAddr (s : VRState) (c amt : Nat) :
    (contributeBody s c amt).1.tokenAddr = s.tokenAddr := by
  rw [contributeBody_eq]

lemma grantScoped_step (s : VRState) (op : Op) (h : GrantScoped s) :
    GrantScoped (exec s op) := by
  cases op with
  | configure caller now nm target endTs =>
    by_cases hc : caller = s.owner
    · by_cases he : now < endTs
      · rw [exec_configure_ok s caller now nm target endTs hc he]
        intro g hg hself htoken
        obtain ⟨hcon, how, hsa, hta, _, hgr⟩ := configureBody_frame s nm target endTs
        rw [hgr] at hg
        rw [hsa] at hself
        rw [hta] at htoken
        rw [how]
        exact h g hg hself htoken
      · rw [exec_configure_fail s caller now nm target endTs
          (Or.inr (Nat.not_lt.mp he))]
        exact h
    · rw [exec_configure_fail s caller now nm target endTs (Or.inl hc)]
      exact h
  | contribute caller now amount =>
    by_cases h0 : s.campaignId = 0
    · rw [exec_contribute_fail s caller now amount (Or.inl h0)]; exact h
    · by_cases hf : (s.campaigns s.campaignId).finalized = true
      · rw [exec_contribute_fail s caller now amount (Or.inr (Or.inl hf))]; exact h
      · by_cases he : (s.campaigns s.campaignId).endTimestamp ≤ now
        · rw [exec_contribute_fail s caller now amount (Or.inr (Or.inr he))]; exact h
        · have hf' : (s.campaigns s.campaignId).finalized = false := by
            revert hf; cases (s.campaigns s.campaignId).finalized <;> simp
          rw [exec_contribute_ok s caller now amount h0 hf' (Nat.not_le.mp he)]
          intro g hg hself htoken
          rw [cb_selfAddr] at hself
          rw [cb_tokenAddr] at htoken
          rw [cb_owner]
          rw [cb_grants] at hg
          simp only [List.mem_cons] at hg
          rcases hg with hg | hg | hg | hg | hg | hg | hg
          · subst hg; exact Or.inr ⟨rfl, s.campaignId, Or.inl rfl⟩
          · subst hg; exact absurd rfl hself
          · subst hg; exact Or.inl ⟨s.campaignId, rfl⟩
          · subst hg; exact absurd rfl hself
          · subst hg; exact absurd rfl htoken
          · subst hg; exact absurd rfl hself
          · exact h g hg hself htoken
  | close caller now =>
    by_cases hc : caller = s.owner
    · by_cases h0 : s.campaignId = 0
      · rw [exec_close_fail s caller now (Or.inr (Or.inl h0))]; exact h
      · by_cases hf : (s.campaigns s.campaignId).finalized = true
        · rw [exec_close_fail s caller now (Or.inr (Or.inr hf))]; exact h
        · have hf' : (s.campaigns s.campaignId).finalized = false := by
            revert hf; cases (s.campaigns s.campaignId).finalized <;> simp
          rw [exec_close_ok s caller now hc h0 hf']
          cases hb : (s.balances s.selfAddr).isInit with
          | false =>
            rw [closeBody_eq_uninit s hb]
            intro g hg hself htoken
            dsimp only at hg hself htoken ⊢
            simp only [List.mem_cons] at hg
            rcases hg with hg | hg | hg
            · subst hg; exact Or.inr ⟨rfl, s.campaignId, Or.inr rfl⟩
            · subst hg; exact absurd rfl hself
            · exact h g hg hself htoken
          | true =>
            rw [closeBody_eq_init s hb]
            intro g hg hself htoken
            dsimp only at hg hself htoken ⊢
            exact h g hg hself htoken
    · rw [exec_close_fail s caller now (Or.inl hc)]; exact h
  | mint dst amount =>
    rw [show exec s (.mint dst amount) = mint s dst amount from rfl,
      mint_eq s dst amount]
    intro g hg hself htoken
    exact h g hg hself htoken

lemma grantScoped_run (s : VRState) (ops : List Op) (h : GrantScoped s) :
    GrantScoped (run s ops) := by
  induction ops generalizing s with
  | nil => exact h
  | cons op rest ih => exact ih (exec s op) (grantScoped_step s op h)

/-- C3 (amended): after any sequence of operations from a freshly deployed
ledger, every decryption grant to an address other than the vault contract
itself and the payment token contract is either a contributor's grant on that
contributor's own accumulated contribution handle, or a grant to the owner on
a campaign aggregate handle (or on the fresh zero payout handle of an
empty-balance close); in particular no contributor is ever granted another
contributor's total or the aggregate. -/
theorem decryption_grant_scope_amended :
    ∀ (o a t : Address) (ops : List Op), GrantScoped (run (mkInit o a t) ops) := by
  intro o a t ops
  apply grantScoped_run
  intro g hg
  simp [mkInit] at hg

/-- C3 counterexample: after one configure and one contribute from a fresh
deployment (owner 1, vault address 2, token address 3), the ledger has granted
the vault contract address — a non-owner — rights on the campaign aggregate
handle, refuting the claim that only the owner is ever granted rights on the
aggregate. -/
theorem decryption_grant_scope_counterexample :
    ((⟨2, 6, .aggregate 1⟩ : Grant) ∈
      (run (mkInit 1 2 3)
        [.configure 1 0 "Demo" 2000000 3600, .contribute 4 10 1250000]).grants) ∧
    (run (mkInit 1 2 3)
      [.configure 1 0 "Demo" 2000000 3600, .contribute 4 10 1250000]).owner = 1 ∧
    (2 : Nat) ≠ 1 := by
  refine ⟨?_, rfl, by decide⟩
  decide

lemma dropWhile_eq_self (p : Char → Bool) (l : List Char)
    (h : ∀ c ∈ l, p c = false) : l.dropWhile p = l := by
  cases l with
  | nil => rfl
  | cons a as => simp [List.dropWhile_cons, h a (List.mem_cons_self a as)]

lemma jsTrimList_eq_self (l : List Char) (h : ∀ c ∈ l, jsWs c = false) :
    jsTrimList l = l := by
  unfold jsTrimList
  rw [dropWhile_eq_self _ l h,
    dropWhile_eq_self _ _ (fun c hc => h c (by simpa using hc)),
    List.reverse_reverse]

lemma splitDot_ne_nil (l : List Char) : splitDot l ≠ [] := by
  cases l with
  | nil => simp [splitDot]
  | cons c cs =>
    unfold splitDot
    cases splitDot cs with
    | nil => simp
    | cons seg segs => split_ifs <;> simp

lemma splitDot_cons (c : Char) (cs : List Char) :
    splitDot (c :: cs) =
      match splitDot cs with
      | seg :: segs => if c = '.' then [] :: seg :: segs else (c :: seg) :: segs
      | [] => [[]] := rfl

lemma splitDot_no_dot (w : List Char) (hw : '.' ∉ w) : splitDot w = [w] := by
  induction w with
  | nil => rfl
  | cons c cs ih =>
    have hc : c ≠ '.' := fun hh => hw (hh ▸ List.mem_cons_self c cs)
    have hcs : '.' ∉ cs := fun hh => hw (List.mem_cons_of_mem c hh)
    unfold splitDot
    rw [ih hcs]
    simp [hc]

lemma splitDot_append (w rest : List Char) (hw : '.' ∉ w) :
    splitDot (w ++ '.' :: rest) = w :: splitDot rest := by
  induction w with
  | nil =>
    simp only [List.nil_append]
    obtain ⟨seg, segs, hs⟩ : ∃ seg segs, splitDot rest = seg :: segs := by
      cases hsd : splitDot rest with
      | nil => exact absurd hsd (splitDot_ne_nil rest)
      | cons seg segs => exact ⟨seg, segs, rfl⟩
    rw [splitDot_cons, hs]
    simp [← hs]
  | cons c cs ih =>
    have hc : c ≠ '.' := fun hh => hw (hh ▸ List.mem_cons_self c cs)
    have hcs : '.' ∉ cs := fun hh => hw (List.mem_cons_of_mem c hh)
    simp only [List.cons_append]
    rw [splitDot_cons, ih hcs]
    simp [hc]

lemma digits_foldl (l : List Char) :
    ∀ acc : Nat, l.foldl (fun acc c => acc * 10 + (c.toNat - 48)) acc =
      acc * 10 ^ l.length + l.foldl (fun acc c => acc * 10 + (c.toNat - 48)) 0 := by
  induction l with
  | nil => intro acc; simp
  | cons c cs ih =>
    intro acc
    simp only [List.foldl_cons, List.length_cons]
    rw [ih (acc * 10 + (c.toNat - 48)), ih (0 * 10 + (c.toNat - 48))]
    have hzero : (0 : Nat) * 10 + (c.toNat - 48) = c.toNat - 48 := by omega
    rw [hzero]
    ring

lemma digitsToNat_append (a b : List Char) :
    digitsToNat (a ++ b) = digitsToNat a * 10 ^ b.length + digitsToNat b := by
  unfold digitsToNat
  rw [List.foldl_append, digits_foldl b]

lemma digitsToNat_replicate_zero (n : Nat) :
    digitsToNat (List.replicate n '0') = 0 := by
  induction n with
  | zero => rfl
  | succ m ih =>
    unfold digitsToNat at ih ⊢
    rw [List.replicate_succ, List.foldl_cons, digits_foldl]
    simpa using ih

lemma padded_fraction_value (f : List Char) :
    digitsToNat ((f ++ ['0', '0', '0', '0', '0', '0']).take 6) = specFracValue f := by
  have hz : (['0', '0', '0', '0', '0', '0'] : List Char) = List.replicate 6 '0' := rfl
  rw [hz, List.take_append_eq_append_take, List.take_replicate,
    digitsToNat_append, digitsToNat_replicate_zero, List.length_replicate,
    Nat.add_zero, specFracValue]
  by_cases hlen : f.length ≤ 6
  · rw [Nat.min_eq_left (by omega)]
  · have h6 : 6 - f.length = 0 := by omega
    rw [h6]
    simp



lemma digit_ne_dot (c : Char) (h : c.isDigit = true) : c ≠ '.' := by
  intro heq
  subst heq
  exact absurd h (by decide)

lemma digit_not_ws (c : Char) (h : c.isDigit = true) : jsWs c = false := by
  have hb : 48 ≤ c.toNat ∧ c.toNat ≤ 57 := by
    simp only [Char.isDigit, Bool.and_eq_true, decide_eq_true_eq] at h
    obtain ⟨h1, h2⟩ := h
    constructor
    · exact h1
    · exact h2
  simp only [jsWs, List.mem_cons, decide_eq_false_iff_not]
  intro hmem
  rcases hmem with h | h | h | h | h | h | h | h | h | h | h | h | h | h | h |
    h | h | h | h | h | h | h | h | h | h | h <;> first | omega | simp at h


lemma parseAmount_eval (l : List Char) (hws : ∀ c ∈ l, jsWs c = false)
    (hne : l ≠ []) :
    parseAmount ⟨l⟩ =
      (if ¬((splitDot l).headD [] ≠ [] ∧
           ((splitDot l).headD []).all (fun c => c.isDigit)) then none else
       if ¬(((splitDot l).getD 1 []).all (fun c => c.isDigit)) then none else
       some (digitsToNat ((splitDot l).headD [] ++
         (((splitDot l).getD 1 []) ++ ['0', '0', '0', '0', '0', '0']).take 6))) := by
  simp only [parseAmount]
  rw [jsTrimList_eq_self l hws, if_neg hne]

/-- C8 (amended): `parseAmount` accepts a digit string `w` (value `w·10^6`)
and a decimal `w.f` with digit parts (value `w·10^6` plus the fraction
truncated or right-padded to six digits); it rejects a dot-free or
single-dot input whose integer part is empty or whose first two segments
contain a non-digit; but anything after a second dot — even non-numeric
characters — is silently ignored rather than rejected. -/
theorem parseAmount_amended (w f rest : List Char)
    (hw1 : w ≠ []) (hw2 : w.all (fun c => c.isDigit) = true)
    (hf : f.all (fun c => c.isDigit) = true)
    (hrest : ∀ c ∈ rest, jsWs c = false) :
    parseAmount ⟨w⟩ = some (digitsToNat w * 1000000) ∧
    parseAmount ⟨w ++ '.' :: f⟩ =
      some (digitsToNat w * 1000000 + specFracValue f) ∧
    parseAmount ⟨w ++ ('.' :: (f ++ ('.' :: rest)))⟩ =
      some (digitsToNat w * 1000000 + specFracValue f) ∧
    (∀ v : List Char, (∀ c ∈ v, jsWs c = false) → '.' ∉ v →
      ¬(v ≠ [] ∧ v.all (fun c => c.isDigit) = true) →
      parseAmount ⟨v⟩ = none) ∧
    (∀ v u : List Char, (∀ c ∈ v, jsWs c = false) → (∀ c ∈ u, jsWs c = false) →
      '.' ∉ v → '.' ∉ u →
      ¬((v ≠ [] ∧ v.all (fun c => c.isDigit) = true) ∧
        u.all (fun c => c.isDigit) = true) →
      parseAmount ⟨v ++ '.' :: u⟩ = none) := by
  have hwAll : ∀ c ∈ w, c.isDigit = true := List.all_eq_true.mp hw2
  have hfAll : ∀ c ∈ f, c.isDigit = true := List.all_eq_true.mp hf
  have hwws : ∀ c ∈ w, jsWs c = false := fun c hc => digit_not_ws c (hwAll c hc)
  have hfws : ∀ c ∈ f, jsWs c = false := fun c hc => digit_not_ws c (hfAll c hc)
  have hwd : '.' ∉ w := fun hmem => digit_ne_dot '.' (hwAll '.' hmem) rfl
  have hfd : '.' ∉ f := fun hmem => digit_ne_dot '.' (hfAll '.' hmem) rfl
  have hdot : jsWs '.' = false := by decide
  refine ⟨?_, ?_, ?_, ?_, ?_⟩
  · rw [parseAmount_eval w hwws hw1, splitDot_no_dot w hwd]
    simp [hw1, hw2, digitsToNat_append, digitsToNat_replicate_zero,
      show (['0','0','0','0','0','0'] : List Char) = List.replicate 6 '0' from rfl]
    decide
  · have hne : w ++ '.' :: f ≠ [] := by cases w <;> simp
    have hws : ∀ c ∈ w ++ '.' :: f, jsWs c = false := by
      intro c hc
      rcases List.mem_append.mp hc with h | h
      · exact hwws c h
      · rcases List.mem_cons.mp h with h | h
        · exact h ▸ hdot
        · exact hfws c h
    rw [parseAmount_eval _ hws hne, splitDot_append w f hwd,
      splitDot_no_dot f hfd]
    simp [hw1, hw2, hf, digitsToNat_append, padded_fraction_value]
  · have hne : w ++ ('.' :: (f ++ ('.' :: rest))) ≠ [] := by cases w <;> simp
    have hws : ∀ c ∈ w ++ ('.' :: (f ++ ('.' :: rest))), jsWs c = false := by
      intro c hc
      rcases List.mem_append.mp hc with h | h
      · exact hwws c h
      rcases List.mem_cons.mp h with h | h
      · exact h ▸ hdot
      rcases List.mem_append.mp h with h | h
      · exact hfws c h
      rcases List.mem_cons.mp h with h | h
      · exact h ▸ hdot
      · exact hrest c h
    rw [parseAmount_eval _ hws hne, splitDot_append w _ hwd,
      splitDot_append f rest hfd]
    simp [hw1, hw2, hf, digitsToNat_append, padded_fraction_value]
  · intro v hvws hvd hbad
    by_cases hv0 : v = []
    · subst hv0
      rfl
    · rw [parseAmount_eval v hvws hv0, splitDot_no_dot v hvd]
      simp only [List.headD_cons, List.getD_cons_succ, List.getD_cons_zero]
      rw [if_pos]
      intro hpos
      exact hbad ⟨hpos.1, hpos.2⟩
  · intro v u hvws huws hvd hud hbad
    have hne : v ++ '.' :: u ≠ [] := by cases v <;> simp
    have hws : ∀ c ∈ v ++ '.' :: u, jsWs c = false := by
      intro c hc
      rcases List.mem_append.mp hc with h | h
      · exact hvws c h
      · rcases List.mem_cons.mp h with h | h
        · exact h ▸ hdot
        · exact huws c h
    rw [parseAmount_eval _ hws hne, splitDot_append v u hvd,
      splitDot_no_dot u hud]
    simp only [List.headD_cons, List.getD_cons_succ, List.getD_cons_zero]
    by_cases hv : v ≠ [] ∧ v.all (fun c => c.isDigit) = true
    · rw [if_neg (not_not_intro hv)]
      have hu : ¬(u.all (fun c => c.isDigit) = true) := fun hu => hbad ⟨hv, hu⟩
      rw [if_pos hu]
    · rw [if_pos hv]

/-- C8 counterexample: the input string `1.2.x` contains the letter `x` — a
non-numeric character by any reading — yet `parseAmount` accepts it,
returning `1.2` scaled (everything after the second dot is discarded by the
destructuring of `split('.')`), instead of rejecting it with `null`. -/
theorem parseAmount_counterexample :
    parseAmount "1.2.x" = some 1200000 ∧
    'x' ∈ "1.2.x".data ∧ 'x'.isDigit = false ∧ 'x' ≠ '.' ∧ jsWs 'x' = false := by
  decide

theorem parseAmount_amended_witness :
    parseAmount "1.25" = some 1250000 := by
  have h := (parseAmount_amended ['1'] ['2', '5'] [] (by decide) (by decide)
    (by decide) (by decide)).2.1
  calc parseAmount "1.25"
      = parseAmount ⟨['1'] ++ '.' :: ['2', '5']⟩ := rfl
    _ = some (digitsToNat ['1'] * 1000000 + specFracValue ['2', '5']) := h
    _ = some 1250000 := by decide

theorem contribute_accumulates_sums_witness :
    ((runContribs (exec (mkInit 1 2 3) (.configure 1 0 "Demo" 2000000 3600))
        [(4, 10, 1250000), (5, 20, 750000), (4, 30, 1000)]).contributions 1 4).val
      = 1251000 ∧
    (((runContribs (exec (mkInit 1 2 3) (.configure 1 0 "Demo" 2000000 3600))
        [(4, 10, 1250000), (5, 20, 750000), (4, 30, 1000)]).campaigns 1).totalRaised).val
      = 2001000 := by
  have h := contribute_accumulates_sums
    (exec (mkInit 1 2 3) (.configure 1 0 "Demo" 2000000 3600))
    [(4, 10, 1250000), (5, 20, 750000), (4, 30, 1000)] 1
    rfl (by decide) rfl (by decide) (by decide) (fun a => rfl) rfl (by decide)
  exact ⟨by rw [h.1 4]; decide, by rw [h.2.1]; decide⟩

theorem ledger_immutability_witness :
    (exec (mkInit 1 2 3) (.mint 4 5)).contributions 0 7 =
      (mkInit 1 2 3).contributions 0 7 := by
  by_contra hne
  obtain ⟨now, amount, hop, _⟩ :=
    (ledger_immutability (mkInit 1 2 3) (.mint 4 5) (WF_mkInit 1 2 3)).2.1 0 7 hne
  exact Op.noConfusion hop

theorem reconfigure_expired_campaign_witness :
    isActive (configureBody (run (mkInit 1 2 3) [.configure 1 0 "Demo" 2000000 10])
      "Relaunch" 3000000 20) 15 = true := by
  have h := reconfigure_expired_campaign
    (run (mkInit 1 2 3) [.configure 1 0 "Demo" 2000000 10]) 10 "Relaunch" 3000000 20
    (by decide) rfl rfl (by decide) (by decide)
  exact h.2.2.2.2.2.2.1 15 (by decide)

lemma cb_balances_self (s : VRState) (c amt : Nat) (hc : c ≠ s.selfAddr) :
    ((contributeBody s c amt).1.balances s.selfAddr).val =
      ((s.balances s.selfAddr).val + amt % U64) % U64 := by
  rw [contributeBody_eq]
  dsimp only
  rw [if_pos rfl, if_neg (fun hh => hc hh.symm)]

lemma exec_addr_frame (s : VRState) (op : Op) :
    (exec s op).owner = s.owner ∧ (exec s op).selfAddr = s.selfAddr ∧
    (exec s op).tokenAddr = s.tokenAddr := by
  cases op with
  | configure caller now nm target endTs =>
    by_cases hc : caller = s.owner
    · by_cases he : now < endTs
      · rw [exec_configure_ok s caller now nm target endTs hc he]
        obtain ⟨_, how, hsa, hta, _, _⟩ := configureBody_frame s nm target endTs
        exact ⟨how, hsa, hta⟩
      · rw [exec_configure_fail s caller now nm target endTs
          (Or.inr (Nat.not_lt.mp he))]
        exact ⟨rfl, rfl, rfl⟩
    · rw [exec_configure_fail s caller now nm target endTs (Or.inl hc)]
      exact ⟨rfl, rfl, rfl⟩
  | contribute caller now amount =>
    by_cases h0 : s.campaignId = 0
    · rw [exec_contribute_fail s caller now amount (Or.inl h0)]
      exact ⟨rfl, rfl, rfl⟩
    · by_cases hf : (s.campaigns s.campaignId).finalized = true
      · rw [exec_contribute_fail s caller now amount (Or.inr (Or.inl hf))]
        exact ⟨rfl, rfl, rfl⟩
      · by_cases he : (s.campaigns s.campaignId).endTimestamp ≤ now
        · rw [exec_contribute_fail s caller now amount (Or.inr (Or.inr he))]
          exact ⟨rfl, rfl, rfl⟩
        · have hf' : (s.campaigns s.campaignId).finalized = false := by
            revert hf; cases (s.campaigns s.campaignId).finalized <;> simp
          rw [exec_contribute_ok s caller now amount h0 hf' (Nat.not_le.mp he)]
          exact ⟨cb_owner s caller amount, cb_selfAddr s caller amount,
            cb_tokenAddr s caller amount⟩
  | close caller now =>
    by_cases hc : caller = s.owner
    · by_cases h0 : s.campaignId = 0
      · rw [exec_close_fail s caller now (Or.inr (Or.inl h0))]
        exact ⟨rfl, rfl, rfl⟩
      · by_cases hf : (s.campaigns s.campaignId).finalized = true
        · rw [exec_close_fail s caller now (Or.inr (Or.inr hf))]
          exact ⟨rfl, rfl, rfl⟩
        · have hf' : (s.campaigns s.campaignId).finalized = false := by
            revert hf; cases (s.campaigns s.campaignId).finalized <;> simp
          rw [exec_close_ok s caller now hc h0 hf']
          obtain ⟨_, how, hsa, hta, _⟩ := closeBody_frame s
          exact ⟨how, hsa, hta⟩
    · rw [exec_close_fail s caller now (Or.inl hc)]
      exact ⟨rfl, rfl, rfl⟩
  | mint dst amount =>
    rw [show exec s (.mint dst amount) = mint s dst amount from rfl,
      mint_eq s dst amount]
    exact ⟨rfl, rfl, rfl⟩

lemma balInv_step (s : VRState) (op : Op) (hw : WF s)
    (hos : s.owner ≠ s.selfAddr)
    (hop : OpNotVault s.selfAddr op) (h : BalInv s) : BalInv (exec s op) := by
  have hn : s.nextHid ≠ 0 := by have := hw.nextHid_pos; omega
  obtain ⟨h1, h2⟩ := h
  cases op with
  | configure caller now nm target endTs =>
    by_cases hc : caller = s.owner
    · by_cases he : now < endTs
      · rw [exec_configure_ok s caller now nm target endTs hc he]
        by_cases hb : s.campaignId = 0 ∨ (s.campaigns s.campaignId).finalized
        · have hz : (s.balances s.selfAddr).val = 0 := by
            apply h2
            rcases hb with hh | hh
            · exact Or.inl hh
            · exact Or.inr (by simpa using hh)
          rw [configureBody_eq_new s nm target endTs hb hn]
          constructor
          · intro _ _
            dsimp only
            rw [if_pos rfl]
            exact hz
          · intro hcon
            dsimp only at hcon
            rcases hcon with hh | hh
            · exact absurd hh (by omega)
            · rw [if_pos rfl] at hh
              exact absurd hh (by simp)
        · have hb' := hb
          simp only [not_or, Bool.not_eq_true] at hb'
          obtain ⟨h0, hfin⟩ := hb'
          rw [configureBody_eq_inplace s nm target endTs hb (hw.total_init h0 hfin)]
          constructor
          · intro _ _
            dsimp only
            rw [if_pos rfl]
            exact h1 h0 hfin
          · intro hcon
            dsimp only at hcon
            rcases hcon with hh | hh
            · exact absurd hh h0
            · rw [if_pos rfl] at hh
              exact absurd hh (by simp)
      · rw [exec_configure_fail s caller now nm target endTs
          (Or.inr (Nat.not_lt.mp he))]
        exact ⟨h1, h2⟩
    · rw [exec_configure_fail s caller now nm target endTs (Or.inl hc)]
      exact ⟨h1, h2⟩
  | contribute caller now amount =>
    by_cases h0 : s.campaignId = 0
    · rw [exec_contribute_fail s caller now amount (Or.inl h0)]; exact ⟨h1, h2⟩
    · by_cases hf : (s.campaigns s.campaignId).finalized = true
      · rw [exec_contribute_fail s caller now amount (Or.inr (Or.inl hf))]
        exact ⟨h1, h2⟩
      · by_cases he : (s.campaigns s.campaignId).endTimestamp ≤ now
        · rw [exec_contribute_fail s caller now amount (Or.inr (Or.inr he))]
          exact ⟨h1, h2⟩
        · have hf' : (s.campaigns s.campaignId).finalized = false := by
            revert hf; cases (s.campaigns s.campaignId).finalized <;> simp
          rw [exec_contribute_ok s caller now amount h0 hf' (Nat.not_le.mp he)]
          have hcv : caller ≠ s.selfAddr := hop
          constructor
          · intro _ _
            rw [cb_selfAddr, cb_balances_self s caller amount hcv,
              cb_campaigns, cb_campaignId, if_pos rfl]
            dsimp only
            rw [h1 h0 hf']
          · intro hcon
            rw [cb_campaignId] at hcon
            rcases hcon with hh | hh
            · exact absurd hh h0
            · rw [cb_campaigns, if_pos rfl] at hh
              dsimp only at hh
              exact absurd hh (by rw [hf']; simp)
  | close caller now =>
    by_cases hc : caller = s.owner
    · by_cases h0 : s.campaignId = 0
      · rw [exec_close_fail s caller now (Or.inr (Or.inl h0))]; exact ⟨h1, h2⟩
      · by_cases hf : (s.campaigns s.campaignId).finalized = true
        · rw [exec_close_fail s caller now (Or.inr (Or.inr hf))]; exact ⟨h1, h2⟩
        · have hf' : (s.campaigns s.campaignId).finalized = false := by
            revert hf; cases (s.campaigns s.campaignId).finalized <;> simp
          rw [exec_close_ok s caller now hc h0 hf']
          cases hb : (s.balances s.selfAddr).isInit with
          | false =>
            have hz : (s.balances s.selfAddr).val = 0 :=
              hw.bal_uninit _ (by simpa [Handle.isInit] using hb)
            rw [closeBody_eq_uninit s hb]
            constructor
            · intro _ hcon
              dsimp only at hcon
              rw [if_pos rfl] at hcon
              exact absurd hcon (by simp)
            · intro _
              exact hz
          | true =>
            rw [closeBody_eq_init s hb]
            constructor
            · intro _ hcon
              dsimp only at hcon
              rw [if_pos rfl] at hcon
              exact absurd hcon (by simp)
            · intro _
              dsimp only
              rw [if_neg (fun hh => hos hh.symm), if_pos rfl]
    · rw [exec_close_fail s caller now (Or.inl hc)]; exact ⟨h1, h2⟩
  | mint dst amount =>
    have hd : dst ≠ s.selfAddr := hop
    rw [show exec s (.mint dst amount) = mint s dst amount from rfl,
      mint_eq s dst amount]
    constructor
    · intro ha hb
      dsimp only
      rw [if_neg (fun hh => hd hh.symm)]
      exact h1 ha hb
    · intro hcon
      dsimp only
      rw [if_neg (fun hh => hd hh.symm)]
      exact h2 hcon

/-- From a fresh deployment whose owner is not the vault contract address,
along any transaction sequence in which the vault address never acts as a
contributor or mint target, the contract's encrypted balance decrypts to the
open campaign's aggregate (and to zero when no campaign is open). This
discharges the balance hypothesis of `closeCampaign_behavior` for reachable
states. -/
lemma balInv_run (o a t : Address) (ops : List Op) (ho : o ≠ a)
    (hops : ∀ op ∈ ops, OpNotVault a op) :
    BalInv (run (mkInit o a t) ops) := by
  have hgen : ∀ (ops' : List Op) (s : VRState), WF s → s.selfAddr = a →
      s.owner ≠ s.selfAddr →
      (∀ op ∈ ops', OpNotVault a op) → BalInv s → BalInv (run s ops') := by
    intro ops'
    induction ops' with
    | nil => intro s _ _ _ _ h; exact h
    | cons op rest ih =>
      intro s hw hsa hown hops h
      obtain ⟨how, hsa', _⟩ := exec_addr_frame s op
      refine ih (exec s op) (WF_exec s op hw) (hsa'.trans hsa) ?_ ?_ ?_
      · rw [how, hsa']
        exact hown
      · intro op2 h2
        exact hops op2 (List.mem_cons_of_mem op h2)
      · apply balInv_step s op hw hown ?_ h
        rw [hsa]
        exact hops op (List.mem_cons_self op rest)
  apply hgen ops (mkInit o a t) (WF_mkInit o a t) rfl ho hops
  exact ⟨fun hcon _ => absurd rfl hcon, fun _ => rfl⟩

end VaultRocket
